import Mathlib

/-!
Verification development for the OpenAI-dialect translation and streaming-relay
core of the CLIProxyAPI gateway.

The Go sources are shallowly embedded:
* JSON values (`encoding/json`'s `interface{}` representation) become the
  inductive `JVal`.  Go's `map[string]interface{}` is modelled as an ordered
  association list; a Go map is unordered and collapses duplicate keys, so the
  list order merely stands in for one iteration order of the map.
* `util.SanitizeSchemaForGemini` and its helpers (`sanitizeGeminiSchema`,
  `normalizeGeminiType`, `sanitizeGeminiEnum`, `sanitizeGeminiRequired`).
* the handler-level converters of `openai_handlers.go`
  (`convertCompletionsRequestToChatCompletions`,
  `convertChatCompletionsStreamChunkToCompletions`).
* the three streaming relay select-loops (`handleStreamResult`,
  `forwardResponsesStream`, the loop inside `handleCompletionsStreamingResponse`)
  as one event-trace interpreter `relayRun` parameterised by the per-chunk
  framing and the termination marker, exactly the two points in which the three
  loops differ.
-/

/-- JSON value as produced by Go's `encoding/json` unmarshalling into
`interface{}`: `nil`, `bool`, `float64` (modelled as `Rat`), `string`,
`[]interface{}` and `map[string]interface{}` (modelled as an ordered
association list). -/
inductive JVal where
  | null : JVal
  | bool (b : Bool) : JVal
  | num (q : Rat) : JVal
  | str (s : String) : JVal
  | arr (items : List JVal) : JVal
  | obj (fields : List (String × JVal)) : JVal

/-- ASCII lower-casing of a key, modelling Go `strings.ToLower` on the ASCII
keys the sanitizer compares against. -/
def lowerStr (s : String) : String := ⟨s.data.map Char.toLower⟩

/-- ASCII upper-casing, modelling Go `strings.ToUpper`. -/
def upperStr (s : String) : String := ⟨s.data.map Char.toUpper⟩

/-- Whitespace predicate of Go `unicode.IsSpace` restricted to ASCII. -/
def isSpaceChar (c : Char) : Bool :=
  c = ' ' || c = '\t' || c = '\n' || c = '\r' || c = Char.ofNat 11 || c = Char.ofNat 12

/-- Trim on the character list: drop whitespace from both ends. -/
def trimList (l : List Char) : List Char :=
  ((l.dropWhile isSpaceChar).reverse.dropWhile isSpaceChar).reverse

/-- Go `strings.TrimSpace`. -/
def trimSpace (s : String) : String := ⟨trimList s.data⟩

/-- The six type names of the `geminiAllowedTypes` map. -/
def geminiAllowedTypes : List String :=
  ["OBJECT", "ARRAY", "STRING", "NUMBER", "INTEGER", "BOOLEAN"]

/-- The case dispatch of `normalizeGeminiType` on the upper-cased, trimmed
name: keep the six allowed names, map the aliases (the source's `switch`
duplicates `OBJECT`/`RECORD`/`MAP` already caught by the map lookup), drop
everything else (empty string = dropped). -/
def normalizeGeminiTypeAux (upper : String) : String :=
  if upper ∈ geminiAllowedTypes then upper
  else if upper = "RECORD" || upper = "MAP" then "OBJECT"
  else if upper = "BOOL" then "BOOLEAN"
  else if upper = "DOUBLE" || upper = "FLOAT" then "NUMBER"
  else if upper = "INT" then "INTEGER"
  else if upper = "LIST" then "ARRAY"
  else ""

/-- Go `normalizeGeminiType`. -/
def normalizeGeminiType (t : String) : String :=
  normalizeGeminiTypeAux (upperStr (trimSpace t))

/-- Scalar JSON values: the `string, float64, bool, nil` type-switch cases of
`sanitizeGeminiEnum`. -/
def isScalar (v : JVal) : Bool :=
  match v with
  | .str _ => true
  | .num _ => true
  | .bool _ => true
  | .null => true
  | _ => false

/-- Go `sanitizeGeminiEnum`: keep only scalar entries of an array; any other
input yields the empty (nil) slice. -/
def sanitizeGeminiEnum (val : JVal) : List JVal :=
  match val with
  | .arr items => items.filter isScalar
  | _ => []

/-- One entry of the `required` filter: a string entry is trimmed and kept
when non-empty, everything else is dropped. -/
def requiredEntry : JVal → Option String
  | .str s => if trimSpace s = "" then none else some (trimSpace s)
  | _ => none

/-- Go `sanitizeGeminiRequired`: keep the trimmed, non-empty string entries. -/
def sanitizeGeminiRequired (val : JVal) : List String :=
  match val with
  | .arr items => items.filterMap requiredEntry
  | _ => []

/-- Keys dropped entirely by `sanitizeGeminiSchema` (already lower-cased in the
source's `switch`), including the separate `nullable` case. -/
def isDroppedKey (lk : String) : Bool :=
  lk = "$defs" || lk = "definitions" || lk = "$ref" || lk = "anyof" || lk = "allof" ||
  lk = "oneof" || lk = "not" || lk = "if" || lk = "then" || lk = "else" ||
  lk = "dependentrequired" || lk = "dependentschemas" || lk = "patternproperties" ||
  lk = "nullable"

/-- The `case "type"` array branch: normalise each string candidate, take the
first that normalises successfully. -/
def firstNormalizableType : List JVal → Option String
  | [] => none
  | .str s :: rest =>
    if normalizeGeminiType s = "" then firstNormalizableType rest
    else some (normalizeGeminiType s)
  | _ :: rest => firstNormalizableType rest

/-- One iteration of the object loop of `sanitizeGeminiSchema` (`for key, val
:= range v` with the `switch` on the lower-cased key), with the two recursive
results it consumes — `sv` for `sanitizeGeminiSchema(val)` and `pv` for the
sanitized `properties` sub-map — passed in by the recursion below.  Each
iteration contributes the entries the source assigns to `cleaned`. -/
def sanitizeGeminiFieldAux (k : String) (v : JVal) (sv : JVal)
    (pv : List (String × JVal)) : List (String × JVal) :=
  if isDroppedKey (lowerStr k) then []
  else if lowerStr k = "const" then
    match v with
    | .null => []
    | _ => [("enum", .arr [v])]
  else if lowerStr k = "type" then
    match v with
    | .str t =>
      if normalizeGeminiType t = "" then [] else [(k, .str (normalizeGeminiType t))]
    | .arr cands =>
      match firstNormalizableType cands with
      | some n => [(k, .str n)]
      | none => []
    | _ => []
  else if lowerStr k = "enum" then
    match sanitizeGeminiEnum v with
    | [] => []
    | e => [(k, .arr e)]
  else if lowerStr k = "required" then
    match sanitizeGeminiRequired v with
    | [] => []
    | r => [(k, .arr (r.map .str))]
  else if lowerStr k = "properties" then
    match v with
    | .obj _ => [(k, .obj pv)]
    | _ => []
  else if lowerStr k = "items" then
    match sv with
    | .null => []
    | s => [(k, s)]
  else if lowerStr k = "additionalproperties" then
    match v with
    | .bool false => [(k, .bool false)]
    | _ => []
  else
    match sv with
    | .null => []
    | s => [(k, s)]

mutual

/-- Go `sanitizeGeminiSchema`: recursive descent over the parsed JSON value. -/
def sanitizeGeminiSchema : JVal → JVal
  | .obj fields => .obj (sanitizeGeminiFields fields)
  | .arr items => .arr (sanitizeGeminiItems items)
  | v => v
termination_by structural v => v

/-- The object-node loop: each key/value pair contributes its switch output
(`sanitizeGeminiFieldAux`, fed the recursive results).  A Go map is unordered
and holds each key once; the association list keeps the pairs in one fixed
iteration order. -/
def sanitizeGeminiFields : List (String × JVal) → List (String × JVal)
  | [] => []
  | (k, v) :: rest =>
    sanitizeGeminiFieldAux k v (sanitizeGeminiSchema v) (sanitizeGeminiPropsOf v)
      ++ sanitizeGeminiFields rest
termination_by structural l => l

/-- The recursive part of the `case "properties"` branch: the sanitized
property map when the value is an object, unused otherwise. -/
def sanitizeGeminiPropsOf : JVal → List (String × JVal)
  | .obj props => sanitizeGeminiProps props
  | _ => []
termination_by structural v => v

/-- The `case "properties"` loop: sanitize each property value, keeping a
property only when the result is non-nil. -/
def sanitizeGeminiProps : List (String × JVal) → List (String × JVal)
  | [] => []
  | (pk, pv) :: rest =>
    (match sanitizeGeminiSchema pv with
     | .null => []
     | s => [(pk, s)]) ++ sanitizeGeminiProps rest
termination_by structural l => l

/-- The array branch of `sanitizeGeminiSchema`: sanitize each element, keeping
non-nil results in order. -/
def sanitizeGeminiItems : List JVal → List JVal
  | [] => []
  | v :: rest =>
    (match sanitizeGeminiSchema v with
     | .null => []
     | s => [s]) ++ sanitizeGeminiItems rest
termination_by structural l => l

end

/-- One processed field with its recursive results filled in: the head of the
cons case of `sanitizeGeminiFields`. -/
def sanitizeGeminiField (k : String) (v : JVal) : List (String × JVal) :=
  sanitizeGeminiFieldAux k v (sanitizeGeminiSchema v) (sanitizeGeminiPropsOf v)

/-- `interfaces.ErrorMessage` as the relay uses it: a message whose `Error`
field is a Go `error`, itself nil-able (`Option String` models the error
value). -/
structure ErrorMessage where
  error : Option String
deriving DecidableEq, Repr

/-- One write observed on the HTTP response writer: either raw bytes
(`c.Writer.Write` / `fmt.Fprintf`) or the body emitted by
`h.WriteErrorResponse`. -/
inductive WriteEv where
  | dataW (s : String)
  | errBody (e : ErrorMessage)
deriving DecidableEq, Repr

/-- One wake-up of the relay's `select`: client-context cancellation (with the
context's error), a data-channel receive (`ok = true`), data-channel closure
(`ok = false`), an error-channel receive with `ok = true` (the message pointer
may still be nil: `Option`), an error-channel receive with `ok = false`
(channel closed), or the 500 ms liveness tick. -/
inductive StreamEv where
  | ctxDone (err : String)
  | chunk (b : String)
  | dataClosed
  | errRecv (msg : Option ErrorMessage)
  | errClosed
  | tick
deriving DecidableEq, Repr

/-- Observable outcome of running a relay loop on a trace of select wake-ups:
the writes performed in order, the arguments of every `cancel` call, and
whether the loop returned (`done = false` means the trace ended with the loop
still blocked in `select`). -/
structure RelayOut where
  writes : List WriteEv
  cancels : List (Option String)
  done : Bool
deriving DecidableEq, Repr

/-- The relay select-loop shared by `handleStreamResult`,
`forwardResponsesStream` and the loop inside
`handleCompletionsStreamingResponse`, which differ only in the per-chunk
framing `onChunk` and the termination marker `term`.  Events after the loop
returns are never consumed (the goroutine has exited). -/
def relayRun (onChunk : String → List WriteEv) (term : List WriteEv) :
    List StreamEv → RelayOut
  | [] => ⟨[], [], false⟩
  | .ctxDone e :: _ => ⟨[], [some e], true⟩
  | .chunk b :: rest =>
    let o := relayRun onChunk term rest
    ⟨onChunk b ++ o.writes, o.cancels, o.done⟩
  | .dataClosed :: _ => ⟨term, [none], true⟩
  | .errRecv msg :: _ =>
    ⟨(match msg with
      | some m => [.errBody m]
      | none => []),
     [(match msg with
       | some m => m.error
       | none => none)], true⟩
  | .errClosed :: rest => relayRun onChunk term rest
  | .tick :: rest => relayRun onChunk term rest

/-- Framing of `handleStreamResult` (Chat Completions dialect):
`fmt.Fprintf(c.Writer, "data: %s\n\n", chunk)` then flush. -/
def chatFrame (chunk : String) : List WriteEv :=
  [.dataW ("data: " ++ chunk ++ "\n\n")]

/-- Termination marker of the chat and legacy-completions dialects:
`data: [DONE]\n\n`. -/
def chatTerm : List WriteEv := [.dataW "data: [DONE]\n\n"]

/-- `handleStreamResult` of `openai_handlers.go`. -/
def handleStreamResult : List StreamEv → RelayOut := relayRun chatFrame chatTerm

/-- Framing of `forwardResponsesStream`: a blank line before a chunk whose
payload begins with `event:`, then the raw chunk and a newline. -/
def responsesFrame (chunk : String) : List WriteEv :=
  (if "event:".isPrefixOf chunk then [.dataW "\n"] else []) ++
    [.dataW chunk, .dataW "\n"]

/-- Termination marker of the plain Responses dialect: a single newline. -/
def responsesTerm : List WriteEv := [.dataW "\n"]

/-- `forwardResponsesStream` of the Responses handler. -/
def forwardResponsesStream : List StreamEv → RelayOut :=
  relayRun responsesFrame responsesTerm

/-- The backwards scan `for i := len(model)-1; i >= 0; i--` of
`inferEffortFromModel`: index of the last `'-'`, if any.  The model names are
ASCII, so the byte index of the Go source and this character index agree. -/
def lastDashIdx : List Char → Option Nat
  | [] => none
  | c :: rest =>
    match lastDashIdx rest with
    | some i => some (i + 1)
    | none => if c = '-' then some 0 else none

/-- Go `inferEffortFromModel`: split at the last dash; succeed only for the
suffixes minimal/low/medium/high on the exact base `gpt-5`. -/
def inferEffortFromModel (model : String) : String × String × Bool :=
  if model = "" then ("", "", false)
  else
    match lastDashIdx model.data with
    | none => ("", "", false)
    | some idx =>
      if idx = 0 || model.data.length - 1 ≤ idx then ("", "", false)
      else
        let base : String := ⟨model.data.take idx⟩
        let suffix : String := ⟨model.data.drop (idx + 1)⟩
        if (suffix = "minimal" || suffix = "low" || suffix = "medium" ||
            suffix = "high") && base = "gpt-5"
        then (base, suffix, true)
        else ("", "", false)


/-- JSON string escaping for serialization (the common escapes; `encoding/json`
additionally escapes HTML characters, which none of the claims exercise). -/
def jsonEscapeChar (c : Char) : List Char :=
  if c = '"' then ['\\', '"']
  else if c = '\\' then ['\\', '\\']
  else if c = '\n' then ['\\', 'n']
  else if c = '\t' then ['\\', 't']
  else if c = '\r' then ['\\', 'r']
  else [c]

/-- Quote and escape a JSON string. -/
def jsonQuote (s : String) : String :=
  "\"" ++ ⟨(s.data.map jsonEscapeChar).flatten⟩ ++ "\""

/-- Decimal text of a JSON number.  Go unmarshals numbers as `float64`;
integral values print exactly, and the rendering of non-integral values
(irrelevant to every claim) is modelled by a fraction. -/
def ratToJsonString (q : Rat) : String :=
  if q.den = 1 then toString q.num
  else toString q.num ++ "/" ++ toString q.den

mutual

/-- Go `json.Marshal` on unmarshalled values.  On these values (no cycles, no
NaN) marshalling cannot fail, so the source's dead fallback branch is not
modelled.  Go sorts the keys of a map; the association list stands in for the
map's key enumeration, so fields are emitted in list order. -/
def jsonMarshal : JVal → String
  | .null => "null"
  | .bool true => "true"
  | .bool false => "false"
  | .num q => ratToJsonString q
  | .str s => jsonQuote s
  | .arr items => "[" ++ jsonMarshalItems items ++ "]"
  | .obj fields => "\x7b" ++ jsonMarshalFields fields ++ "\x7d"
termination_by structural v => v

/-- Comma-separated serialization of array elements. -/
def jsonMarshalItems : List JVal → String
  | [] => ""
  | [v] => jsonMarshal v
  | v :: rest => jsonMarshal v ++ "," ++ jsonMarshalItems rest
termination_by structural l => l

/-- Comma-separated serialization of object fields. -/
def jsonMarshalFields : List (String × JVal) → String
  | [] => ""
  | [(k, v)] => jsonQuote k ++ ":" ++ jsonMarshal v
  | (k, v) :: rest => jsonQuote k ++ ":" ++ jsonMarshal v ++ "," ++ jsonMarshalFields rest
termination_by structural l => l

end

/-- Field lookup in an association-list object (a Go map holds each key at
most once). -/
def lookupField : List (String × JVal) → String → Option JVal
  | [], _ => none
  | (k, v) :: rest, key => if k = key then some v else lookupField rest key

/-- gjson `Result.Get(key)` for the single-level paths these handlers use:
present iff the node is an object binding the key.  (`Exists()` is modelled by
`Option.isSome`.) -/
def jget (v : JVal) (key : String) : Option JVal :=
  match v with
  | .obj fields => lookupField fields key
  | _ => none

/-- gjson `Result.String()`: missing/null yield `""`, strings are verbatim,
booleans print `true`/`false`, numbers their decimal text, arrays and objects
their raw JSON. -/
def gjsonString (v : JVal) : String :=
  match v with
  | .null => ""
  | .bool true => "true"
  | .bool false => "false"
  | .num q => ratToJsonString q
  | .str s => s
  | .arr items => jsonMarshal (.arr items)
  | .obj fields => jsonMarshal (.obj fields)

/-- gjson `Result.Int()` on the shapes these handlers receive: numbers
truncate toward zero, `true` is 1, everything else 0 (numeric-string parsing
is not exercised by any claim). -/
def gjsonInt (v : JVal) : Int :=
  match v with
  | .num q => q.num / (q.den : Int)
  | .bool true => 1
  | _ => 0

/-- gjson `Result.Float()`: numbers verbatim, `true` is 1, everything else
0. -/
def gjsonFloat (v : JVal) : Rat :=
  match v with
  | .num q => q
  | .bool true => 1
  | _ => 0

/-- gjson `Result.Bool()`: booleans verbatim, `"true"`/`"1"` strings, non-zero
numbers. -/
def gjsonBool (v : JVal) : Bool :=
  match v with
  | .bool b => b
  | .str s => lowerStr s = "true" || s = "1"
  | .num q => q != 0
  | _ => false

/-- One `if field := root.Get(key); field.Exists() { out, _ = sjson.Set(out,
key, f(field)) }` step of the request converter: `sjson.Set` appends a fresh
key at the end of the object. -/
def completionsCopiedField (root : JVal) (key : String) (f : JVal → JVal) :
    List (String × JVal) :=
  match jget root key with
  | some v => [(key, f v)]
  | none => []

/-- The fields of the chat request `convertCompletionsRequestToChatCompletions`
builds: the template's `model` and `messages` (updated in place by
`sjson.Set`), then the copied parameters appended in source order. -/
def convertCompletionsRequestFields (root : JVal) : List (String × JVal) :=
  let prompt :=
    let p := match jget root "prompt" with
             | some pv => gjsonString pv
             | none => ""
    if p = "" then "Complete this:" else p
  [("model", .str (match jget root "model" with
                   | some m => gjsonString m
                   | none => "")),
   ("messages", .arr [.obj [("role", .str "user"), ("content", .str prompt)]])]
    ++ completionsCopiedField root "max_tokens" (fun v => .num (gjsonInt v))
    ++ completionsCopiedField root "temperature" (fun v => .num (gjsonFloat v))
    ++ completionsCopiedField root "top_p" (fun v => .num (gjsonFloat v))
    ++ completionsCopiedField root "frequency_penalty" (fun v => .num (gjsonFloat v))
    ++ completionsCopiedField root "presence_penalty" (fun v => .num (gjsonFloat v))
    ++ completionsCopiedField root "stop" (fun v => v)
    ++ completionsCopiedField root "stream" (fun v => .bool (gjsonBool v))
    ++ completionsCopiedField root "logprobs" (fun v => .bool (gjsonBool v))
    ++ completionsCopiedField root "top_logprobs" (fun v => .num (gjsonInt v))
    ++ completionsCopiedField root "echo" (fun v => .bool (gjsonBool v))

/-- Go `convertCompletionsRequestToChatCompletions`: build the chat request
from the template, wrapping `prompt` (with its literal fallback) as the single
user message and copying the fixed parameter set in source order. -/
def convertCompletionsRequestToChatCompletions (root : JVal) : JVal :=
  .obj (convertCompletionsRequestFields root)

/-- The only top-level keys the completions-to-chat request converter can
emit: the template keys plus the copied parameter set. -/
def chatRequestKeys : List String :=
  ["model", "messages", "max_tokens", "temperature", "top_p",
   "frequency_penalty", "presence_penalty", "stop", "stream", "logprobs",
   "top_logprobs", "echo"]

/-- The per-choice meaningful-content test of
`convertChatCompletionsStreamChunkToCompletions`: a non-empty `delta.content`
or a non-empty, non-"null" `finish_reason`. -/
def choiceHasContent (choice : JVal) : Bool :=
  (match jget choice "delta" with
   | some delta =>
     match jget delta "content" with
     | some content => gjsonString content != ""
     | none => false
   | none => false) ||
  (match jget choice "finish_reason" with
   | some fr => gjsonString fr != "" && gjsonString fr != "null"
   | none => false)

/-- The `chatChoices.Exists() && chatChoices.IsArray()` guard: the chunk's
`choices` array, when present with array shape. -/
def chunkChoices (root : JVal) : Option (List JVal) :=
  match jget root "choices" with
  | some (.arr cs) => some cs
  | _ => none

/-- The `text` extraction of the stream-chunk converter: `delta.content` when
present (the source's non-empty test selects the same value in both branches),
empty string otherwise. -/
def streamChoiceText (choice : JVal) : String :=
  match jget choice "delta" with
  | some delta =>
    match jget delta "content" with
    | some content => gjsonString content
    | none => ""
  | none => ""

/-- One output choice of the stream-chunk converter.  The source builds a Go
map (whose marshalled key order is alphabetical); the list keeps the fields in
insertion order, which no claim observes. -/
def streamChoiceToCompletions (choice : JVal) : JVal :=
  .obj
    ([("index", .num (match jget choice "index" with
                      | some i => gjsonInt i
                      | none => 0)),
      ("text", .str (streamChoiceText choice))]
     ++ (match jget choice "finish_reason" with
         | some fr =>
           if gjsonString fr != "null" then [("finish_reason", .str (gjsonString fr))]
           else []
         | none => [])
     ++ (match jget choice "logprobs" with
         | some lp => [("logprobs", lp)]
         | none => []))

/-- Go `convertChatCompletionsStreamChunkToCompletions`: skip (nil) when no
choice carries meaningful content, otherwise rebuild the chunk in completions
shape. -/
def convertChatCompletionsStreamChunkToCompletions (root : JVal) : Option JVal :=
  if (match chunkChoices root with
      | some cs => cs.any choiceHasContent
      | none => false) then
    some (.obj
      [("id", .str (match jget root "id" with
                    | some i => gjsonString i
                    | none => "")),
       ("object", .str "text_completion"),
       ("created", .num (match jget root "created" with
                         | some c => gjsonInt c
                         | none => 0)),
       ("model", .str (match jget root "model" with
                       | some m => gjsonString m
                       | none => "")),
       ("choices", .arr (((chunkChoices root).getD []).map streamChoiceToCompletions))])
  else none

/-- Skip JSON inter-token whitespace (space, tab, newline, carriage return). -/
def skipJsonWs : List Char → List Char
  | c :: rest =>
    if c = ' ' || c = '\t' || c = '\n' || c = '\r' then skipJsonWs rest
    else c :: rest
  | [] => []

/-- Hex digit value, for `\uXXXX` escapes. -/
def parseHexDigit (c : Char) : Option Nat :=
  if '0' ≤ c ∧ c ≤ '9' then some (c.toNat - '0'.toNat)
  else if 'a' ≤ c ∧ c ≤ 'f' then some (c.toNat - 'a'.toNat + 10)
  else if 'A' ≤ c ∧ c ≤ 'F' then some (c.toNat - 'A'.toNat + 10)
  else none

/-- Body of a JSON string after the opening quote, with the standard escapes
(`\uXXXX` maps to the code point; surrogate pairing is not modelled). -/
def parseStringBody : List Char → List Char → Option (String × List Char)
  | acc, '"' :: rest => some (⟨acc.reverse⟩, rest)
  | acc, '\\' :: c :: rest =>
    if c = '"' then parseStringBody ('"' :: acc) rest
    else if c = '\\' then parseStringBody ('\\' :: acc) rest
    else if c = '/' then parseStringBody ('/' :: acc) rest
    else if c = 'b' then parseStringBody (Char.ofNat 8 :: acc) rest
    else if c = 'f' then parseStringBody (Char.ofNat 12 :: acc) rest
    else if c = 'n' then parseStringBody ('\n' :: acc) rest
    else if c = 'r' then parseStringBody ('\r' :: acc) rest
    else if c = 't' then parseStringBody ('\t' :: acc) rest
    else if c = 'u' then
      match rest with
      | h1 :: h2 :: h3 :: h4 :: rest2 =>
        match parseHexDigit h1, parseHexDigit h2, parseHexDigit h3, parseHexDigit h4 with
        | some a, some b, some c3, some d =>
          parseStringBody (Char.ofNat (((a * 16 + b) * 16 + c3) * 16 + d) :: acc) rest2
        | _, _, _, _ => none
      | _ => none
    else none
  | acc, c :: rest => parseStringBody (c :: acc) rest
  | _, [] => none

/-- Longest digit run at the front of the input. -/
def takeDigits : List Char → List Char × List Char
  | c :: rest =>
    if c.isDigit then
      let (d, r) := takeDigits rest
      (c :: d, r)
    else ([], c :: rest)
  | [] => ([], [])

/-- Numeric value of a digit run. -/
def digitsToNat (l : List Char) : Nat :=
  l.foldl (fun acc c => acc * 10 + (c.toNat - '0'.toNat)) 0

/-- A JSON number (`-?int(.frac)?((e|E)(+|-)?exp)?`), as the exact rational it
denotes (Go parses into `float64`; none of the claims depends on rounding). -/
def parseJsonNumber (cs : List Char) : Option (JVal × List Char) :=
  let (neg, cs1) := match cs with
                    | '-' :: r => (true, r)
                    | _ => (false, cs)
  let (ip, cs2) := takeDigits cs1
  if ip.isEmpty then none
  else
    let afterInt : Option (List Char × List Char) :=
      match cs2 with
      | '.' :: r =>
        let (fd, r2) := takeDigits r
        if fd.isEmpty then none else some (fd, r2)
      | _ => some ([], cs2)
    match afterInt with
    | none => none
    | some (fracDigits, cs3) =>
      let afterExp : Option (Bool × List Char × List Char) :=
        match cs3 with
        | 'e' :: r =>
          (match r with
           | '+' :: r2 => let (d, r3) := takeDigits r2
                          if d.isEmpty then none else some (false, d, r3)
           | '-' :: r2 => let (d, r3) := takeDigits r2
                          if d.isEmpty then none else some (true, d, r3)
           | _ => let (d, r3) := takeDigits r
                  if d.isEmpty then none else some (false, d, r3))
        | 'E' :: r =>
          (match r with
           | '+' :: r2 => let (d, r3) := takeDigits r2
                          if d.isEmpty then none else some (false, d, r3)
           | '-' :: r2 => let (d, r3) := takeDigits r2
                          if d.isEmpty then none else some (true, d, r3)
           | _ => let (d, r3) := takeDigits r
                  if d.isEmpty then none else some (false, d, r3))
        | _ => some (false, [], cs3)
      match afterExp with
      | none => none
      | some (expNeg, expDigits, cs4) =>
        let mant : Rat :=
          (digitsToNat ip : Rat) +
            (digitsToNat fracDigits : Rat) / (10 : Rat) ^ fracDigits.length
        let signed : Rat := if neg then -mant else mant
        let scaled : Rat :=
          if expNeg then signed / (10 : Rat) ^ digitsToNat expDigits
          else signed * (10 : Rat) ^ digitsToNat expDigits
        some (.num scaled, cs4)

mutual

/-- Recursive-descent JSON value parser modelling `json.Unmarshal`'s grammar;
the fuel argument only bounds nesting and is chosen large enough at the top
level. -/
def parseJsonValue : Nat → List Char → Option (JVal × List Char)
  | 0, _ => none
  | Nat.succ fuel, cs =>
    match skipJsonWs cs with
    | 'n' :: 'u' :: 'l' :: 'l' :: rest => some (.null, rest)
    | 't' :: 'r' :: 'u' :: 'e' :: rest => some (.bool true, rest)
    | 'f' :: 'a' :: 'l' :: 's' :: 'e' :: rest => some (.bool false, rest)
    | '"' :: rest =>
      (match parseStringBody [] rest with
       | some (s, r) => some (.str s, r)
       | none => none)
    | '[' :: rest =>
      (match skipJsonWs rest with
       | ']' :: r => some (.arr [], r)
       | _ =>
         match parseJsonElems fuel rest with
         | some (items, r) => some (.arr items, r)
         | none => none)
    | '{' :: rest =>
      (match skipJsonWs rest with
       | '}' :: r => some (.obj [], r)
       | _ =>
         match parseJsonMembers fuel rest with
         | some (ms, r) => some (.obj ms, r)
         | none => none)
    | c :: rest =>
      if c = '-' || c.isDigit then parseJsonNumber (c :: rest) else none
    | [] => none
termination_by structural fuel _ => fuel

/-- Comma-separated object members up to the closing brace. -/
def parseJsonMembers : Nat → List Char → Option (List (String × JVal) × List Char)
  | 0, _ => none
  | Nat.succ fuel, cs =>
    match skipJsonWs cs with
    | '"' :: rest =>
      (match parseStringBody [] rest with
       | some (k, r1) =>
         (match skipJsonWs r1 with
          | ':' :: r2 =>
            (match parseJsonValue fuel r2 with
             | some (v, r3) =>
               (match skipJsonWs r3 with
                | ',' :: r4 =>
                  (match parseJsonMembers fuel r4 with
                   | some (ms, r5) => some ((k, v) :: ms, r5)
                   | none => none)
                | '}' :: r4 => some ([(k, v)], r4)
                | _ => none)
             | none => none)
          | _ => none)
       | none => none)
    | _ => none
termination_by structural fuel _ => fuel

/-- Comma-separated array elements up to the closing bracket. -/
def parseJsonElems : Nat → List Char → Option (List JVal × List Char)
  | 0, _ => none
  | Nat.succ fuel, cs =>
    match parseJsonValue fuel cs with
    | some (v, r1) =>
      (match skipJsonWs r1 with
       | ',' :: r2 =>
         (match parseJsonElems fuel r2 with
          | some (vs, r3) => some (v :: vs, r3)
          | none => none)
       | ']' :: r2 => some ([v], r2)
       | _ => none)
    | none => none
termination_by structural fuel _ => fuel

end

/-- Go `json.Unmarshal` into `interface{}`: one JSON value, with nothing but
whitespace allowed after it.  `none` models a returned parse error. -/
def jsonUnmarshal (s : String) : Option JVal :=
  match parseJsonValue (s.data.length + 1) s.data with
  | some (v, rest) => if skipJsonWs rest = [] then some v else none
  | none => none

/-- Go `util.SanitizeSchemaForGemini`.  The returned `Bool` models whether a
non-nil error accompanies the returned schema text.  The serialize-failure
fallback of the source is dead on unmarshalled values and is not modelled. -/
def SanitizeSchemaForGemini (raw : String) : String × Bool :=
  if trimSpace raw = "" then ("\x7b\x7d", false)
  else
    match jsonUnmarshal (trimSpace raw) with
    | none => (trimSpace raw, true)
    | some schema => (jsonMarshal (sanitizeGeminiSchema schema), false)

/-- `gjson.ParseBytes` never reports an error; on input that is not valid JSON
every path lookup comes back non-existent, which the null value models (the
converter then finds no `choices` and skips the chunk). -/
def parseBytesOrNull (chunk : String) : JVal :=
  (jsonUnmarshal chunk).getD .null

/-- Framing of the loop inside `handleCompletionsStreamingResponse`: convert
the chunk, and only when the converter did not signal skip write
`data: <converted>\n\n`. -/
def completionsFrame (chunk : String) : List WriteEv :=
  match convertChatCompletionsStreamChunkToCompletions (parseBytesOrNull chunk) with
  | some out => [.dataW ("data: " ++ jsonMarshal out ++ "\n\n")]
  | none => []

/-- The relay loop of `handleCompletionsStreamingResponse`. -/
def handleCompletionsStreamingResponse : List StreamEv → RelayOut :=
  relayRun completionsFrame chatTerm

/-- The writes a trace of data-channel chunks and ticks produces: each chunk's
framing in order, nothing for a tick. -/
def framedWrites (onChunk : String → List WriteEv) : List StreamEv → List WriteEv
  | [] => []
  | .chunk b :: rest => onChunk b ++ framedWrites onChunk rest
  | _ :: rest => framedWrites onChunk rest

/-- The chunk's choice list, empty when `choices` is missing or not an
array. -/
def objChoices (root : JVal) : List JVal := (chunkChoices root).getD []

/-- Specification-side reading of a chunk choice that carries meaningful
content: a present, non-empty `delta.content`, or a present `finish_reason`
that is neither empty nor the text null (a JSON-null `finish_reason` prints as
the empty string). -/
def ChoiceCarriesContent (c : JVal) : Prop :=
  (∃ d cv, jget c "delta" = some d ∧ jget d "content" = some cv ∧
    gjsonString cv ≠ "") ∨
  (∃ f, jget c "finish_reason" = some f ∧ gjsonString f ≠ "" ∧
    gjsonString f ≠ "null")

mutual

/-- Every value bound (case-insensitively) to a `const` key anywhere in the
document is a scalar or null.  The C4 counterexample shows sanitization is not
idempotent without this restriction. -/
def constScalar : JVal → Bool
  | .obj fields => constScalarFields fields
  | .arr items => constScalarItems items
  | _ => true
termination_by structural v => v

/-- `constScalar` over an object's fields. -/
def constScalarFields : List (String × JVal) → Bool
  | [] => true
  | (k, v) :: rest =>
    (!(lowerStr k = "const") || isScalar v) && constScalar v &&
      constScalarFields rest
termination_by structural l => l

/-- `constScalar` over an array's elements. -/
def constScalarItems : List JVal → Bool
  | [] => true
  | v :: rest => constScalar v && constScalarItems rest
termination_by structural l => l

end

/-- C1: on a trace of finitely many data chunks (with liveness ticks allowed)
followed by data-channel closure, with no error-channel activity and no client
cancellation, the relay writes exactly the received chunks, framed, in order,
then the dialect's termination marker, and calls cancel exactly once with a
nil error; and on every trace whatsoever the cancellation function is called
exactly once when the loop exits and never before. -/
theorem relay_clean_close_writes_frames_then_term_cancels_nil
    (onChunk : String → List WriteEv) (term : List WriteEv) :
    (∀ pre : List StreamEv,
       (∀ e ∈ pre, (∃ b, e = .chunk b) ∨ e = .tick) →
       relayRun onChunk term (pre ++ [.dataClosed]) =
         ⟨framedWrites onChunk pre ++ term, [none], true⟩) ∧
    (∀ s : List StreamEv,
       (relayRun onChunk term s).cancels.length =
         (if (relayRun onChunk term s).done then 1 else 0)) := by
  constructor
  · intro pre hpre
    induction pre with
    | nil => rfl
    | cons e rest ih =>
      have he := hpre e (List.mem_cons_self ..)
      have hrest : ∀ e ∈ rest, (∃ b, e = .chunk b) ∨ e = .tick := by
        intro x hx
        exact hpre x (List.mem_cons_of_mem _ hx)
      rcases he with ⟨b, rfl⟩ | rfl
      · simp [relayRun, framedWrites, ih hrest]
      · simpa [relayRun, framedWrites] using ih hrest
  · intro s
    induction s with
    | nil => rfl
    | cons e rest ih =>
      cases e with
      | ctxDone err => rfl
      | chunk b => simpa [relayRun] using ih
      | dataClosed => rfl
      | errRecv msg => cases msg <;> rfl
      | errClosed => simpa [relayRun] using ih
      | tick => simpa [relayRun] using ih

/-- C1 witness: the chat-dialect relay on two chunks and a tick followed by
data-channel closure. -/
theorem relay_clean_close_writes_frames_then_term_cancels_nil_witness :
    relayRun chatFrame chatTerm
        [.chunk "a", .tick, .chunk "b", .dataClosed] =
      ⟨[.dataW "data: a\n\n", .dataW "data: b\n\n", .dataW "data: [DONE]\n\n"],
       [none], true⟩ := by
  have h :=
    (relay_clean_close_writes_frames_then_term_cancels_nil chatFrame chatTerm).1
      [.chunk "a", .tick, .chunk "b"]
      (by
        intro e he
        simp only [List.mem_cons, List.not_mem_nil, or_false] at he
        rcases he with rfl | rfl | rfl
        · exact Or.inl ⟨"a", rfl⟩
        · exact Or.inr rfl
        · exact Or.inl ⟨"b", rfl⟩)
  exact h

/-- C2: when the error channel yields one non-nil error message after a trace
of data chunks and ticks, the relay writes the framed chunks, then the error
body exactly once, calls cancel exactly once with that message's error, and
writes nothing more even though further events follow the error. -/
theorem relay_error_terminates_writes_error_once
    (onChunk : String → List WriteEv) (term : List WriteEv) :
    ∀ (pre : List StreamEv) (m : ErrorMessage) (post : List StreamEv),
      (∀ e ∈ pre, (∃ b, e = .chunk b) ∨ e = .tick) →
      relayRun onChunk term (pre ++ .errRecv (some m) :: post) =
        ⟨framedWrites onChunk pre ++ [.errBody m], [m.error], true⟩ := by
  intro pre m post hpre
  induction pre with
  | nil => rfl
  | cons e rest ih =>
    have he := hpre e (List.mem_cons_self ..)
    have hrest : ∀ e ∈ rest, (∃ b, e = .chunk b) ∨ e = .tick := by
      intro x hx
      exact hpre x (List.mem_cons_of_mem _ hx)
    rcases he with ⟨b, rfl⟩ | rfl
    · simp [relayRun, framedWrites, ih hrest]
    · simpa [relayRun, framedWrites] using ih hrest

/-- C2 witness: one chunk, then a non-nil error, then a further chunk that is
never written. -/
theorem relay_error_terminates_writes_error_once_witness :
    relayRun chatFrame chatTerm
        [.chunk "a", .errRecv (some ⟨some "boom"⟩), .chunk "b"] =
      ⟨[.dataW "data: a\n\n", .errBody ⟨some "boom"⟩], [some "boom"], true⟩ := by
  have h :=
    relay_error_terminates_writes_error_once chatFrame chatTerm
      [.chunk "a"] ⟨some "boom"⟩ [.chunk "b"]
      (by
        intro e he
        simp only [List.mem_cons, List.not_mem_nil, or_false] at he
        rcases he with rfl
        exact Or.inl ⟨"a", rfl⟩)
  exact h

/-- C3 counterexample: a nil message received from the open error channel
(`ok = true`, nil pointer) is not ignored — the relay cancels (with nil) and
exits at once, so the claim that a received nil value leaves the loop running
without cancelling, and that only non-nil messages terminate the error case,
fails on this input. -/
theorem relay_nil_error_message_cancels_and_exits :
    relayRun chatFrame chatTerm [.errRecv none, .chunk "x"] =
      ⟨[], [none], true⟩ ∧
    (relayRun chatFrame chatTerm [.errRecv none, .chunk "x"]).done ≠ false ∧
    (relayRun chatFrame chatTerm [.errRecv none, .chunk "x"]).cancels ≠ [] := by
  refine ⟨rfl, by simp [relayRun], by simp [relayRun]⟩

/-- The index returned by the backwards dash scan is in range and holds a
dash. -/
theorem lastDashIdx_spec :
    ∀ (l : List Char) (i : Nat), lastDashIdx l = some i →
      i < l.length ∧ l[i]? = some '-' := by
  intro l
  induction l with
  | nil => intro i h; simp [lastDashIdx] at h
  | cons c rest ih =>
    intro i h
    unfold lastDashIdx at h
    cases hr : lastDashIdx rest with
    | some j =>
      rw [hr] at h
      obtain rfl : j + 1 = i := by simpa using h
      obtain ⟨hlt, hget⟩ := ih j hr
      exact ⟨by simpa using Nat.succ_lt_succ hlt, by simpa using hget⟩
    | none =>
      rw [hr] at h
      by_cases hc : c = '-'
      · simp only [hc, if_pos rfl] at h
        obtain rfl : 0 = i := by simpa using h
        exact ⟨by simp, by simp [hc]⟩
      · simp [hc] at h

/-- C5: suffix inference succeeds exactly on the four `gpt-5-<effort>` names
(last-dash split, suffix in the allow-set, base exactly `gpt-5`), and the
spec's five concrete examples hold. -/
theorem inferEffort_last_dash_exact_family :
    (∀ m : String,
       (inferEffortFromModel m).2.2 = true ↔
         m = "gpt-5-minimal" ∨ m = "gpt-5-low" ∨ m = "gpt-5-medium" ∨
           m = "gpt-5-high") ∧
    inferEffortFromModel "gpt-5-high" = ("gpt-5", "high", true) ∧
    inferEffortFromModel "gpt-5-extreme" = ("", "", false) ∧
    inferEffortFromModel "gpt-5" = ("", "", false) ∧
    inferEffortFromModel "-high" = ("", "", false) ∧
    inferEffortFromModel "gpt-4-high" = ("", "", false) := by
  refine ⟨?_, by decide, by decide, by decide, by decide, by decide⟩
  intro m
  constructor
  · intro hok
    unfold inferEffortFromModel at hok
    split at hok
    · simp at hok
    · rename_i hne
      split at hok
      · simp at hok
      · rename_i idx hdash
        split at hok
        · simp at hok
        · rename_i hrange
          dsimp only at hok
          split at hok
          · rename_i hcond
            simp only [Bool.and_eq_true, Bool.or_eq_true, decide_eq_true_eq]
              at hcond
            obtain ⟨hidx, hget⟩ := lastDashIdx_spec m.data idx hdash
            have hdata : m.data =
                m.data.take idx ++ '-' :: m.data.drop (idx + 1) := by
              conv_lhs => rw [← List.take_append_drop idx m.data]
              congr 1
              rw [List.drop_eq_getElem_cons hidx]
              congr 1
              have hg := List.getElem?_eq_getElem hidx
              rw [hg] at hget
              exact (Option.some.injEq _ _).mp hget
            obtain ⟨hsuffix, hbase⟩ := hcond
            have hbase' : m.data.take idx = "gpt-5".data := by
              have := congrArg String.data hbase
              simpa using this
            have hm : ∀ t : String,
                (⟨m.data.drop (idx + 1)⟩ : String) = t →
                m.data = "gpt-5".data ++ '-' :: t.data := by
              intro t ht
              rw [hdata, hbase']
              have := congrArg String.data ht
              simp only at this
              rw [this]
            rcases hsuffix with ((h | h) | h) | h
            · exact Or.inl (by
                have := hm _ h
                apply String.ext
                rw [this]; decide)
            · exact Or.inr (Or.inl (by
                have := hm _ h
                apply String.ext
                rw [this]; decide))
            · exact Or.inr (Or.inr (Or.inl (by
                have := hm _ h
                apply String.ext
                rw [this]; decide)))
            · exact Or.inr (Or.inr (Or.inr (by
                have := hm _ h
                apply String.ext
                rw [this]; decide)))
          · simp at hok
  · intro hm
    rcases hm with rfl | rfl | rfl | rfl <;> decide

/-- C5 witness: the successful branch applied at `gpt-5-high`. -/
theorem inferEffort_last_dash_exact_family_witness :
    (inferEffortFromModel "gpt-5-high").2.2 = true :=
  (inferEffort_last_dash_exact_family.1 "gpt-5-high").mpr
    (Or.inr (Or.inr (Or.inr rfl)))

/-- C3 amended: only a receive from the *closed* error channel (`ok = false`)
is ignored, the relay writing nothing, cancelling nothing, and continuing the
loop; any message actually received from the open channel terminates the loop
via the error case — a non-nil message after writing the error body once,
cancelling with its error, and a nil message without writing, cancelling with
nil. -/
theorem relay_err_closed_continues_recv_terminates
    (onChunk : String → List WriteEv) (term : List WriteEv)
    (rest : List StreamEv) :
    relayRun onChunk term (.errClosed :: rest) = relayRun onChunk term rest ∧
    (∀ m : ErrorMessage,
       relayRun onChunk term (.errRecv (some m) :: rest) =
         ⟨[.errBody m], [m.error], true⟩) ∧
    relayRun onChunk term (.errRecv none :: rest) = ⟨[], [none], true⟩ := by
  exact ⟨rfl, fun m => rfl, rfl⟩

/-- Lookup passes over a list segment in which it finds nothing. -/
theorem lookupField_append_of_none :
    ∀ (l1 l2 : List (String × JVal)) (key : String),
      lookupField l1 key = none →
      lookupField (l1 ++ l2) key = lookupField l2 key := by
  intro l1 l2 key h
  induction l1 with
  | nil => rfl
  | cons p rest ih =>
    obtain ⟨pk, pv⟩ := p
    rw [List.cons_append]
    simp only [lookupField] at h ⊢
    split at h
    · exact absurd h (by simp)
    · rename_i hne
      rw [if_neg hne]
      exact ih h

/-- A copied-field step binds no key other than its own. -/
theorem lookupField_copiedField :
    ∀ (root : JVal) (key : String) (f : JVal → JVal) (k : String),
      ¬(key = k) → lookupField (completionsCopiedField root key f) k = none := by
  intro root key f k h
  unfold completionsCopiedField
  split
  · unfold lookupField
    rw [if_neg h]
    rfl
  · rfl

/-- C8 amended: the converter builds a fresh document holding only the
template keys and the copied parameter set; every top-level key outside that
set — in particular any unknown/extra field of the input — is absent from the
output. -/
theorem convertCompletionsRequest_unknown_keys_absent :
    ∀ (root : JVal) (k : String), k ∉ chatRequestKeys →
      jget (convertCompletionsRequestToChatCompletions root) k = none := by
  intro root k hk
  have hne : ∀ s : String, s ∈ chatRequestKeys → ¬(s = k) := by
    intro s hs he
    exact hk (he ▸ hs)
  have e0 : ∀ v1 v2 : JVal,
      lookupField [("model", v1), ("messages", v2)] k = none := by
    intro v1 v2
    simp only [lookupField]
    rw [if_neg (hne "model" (by decide)), if_neg (hne "messages" (by decide))]
  show lookupField (convertCompletionsRequestFields root) k = none
  unfold convertCompletionsRequestFields
  simp only [List.append_assoc]
  rw [lookupField_append_of_none _ _ _ (e0 _ _),
    lookupField_append_of_none _ _ _
      (lookupField_copiedField _ _ _ _ (hne "max_tokens" (by decide))),
    lookupField_append_of_none _ _ _
      (lookupField_copiedField _ _ _ _ (hne "temperature" (by decide))),
    lookupField_append_of_none _ _ _
      (lookupField_copiedField _ _ _ _ (hne "top_p" (by decide))),
    lookupField_append_of_none _ _ _
      (lookupField_copiedField _ _ _ _ (hne "frequency_penalty" (by decide))),
    lookupField_append_of_none _ _ _
      (lookupField_copiedField _ _ _ _ (hne "presence_penalty" (by decide))),
    lookupField_append_of_none _ _ _
      (lookupField_copiedField _ _ _ _ (hne "stop" (by decide))),
    lookupField_append_of_none _ _ _
      (lookupField_copiedField _ _ _ _ (hne "stream" (by decide))),
    lookupField_append_of_none _ _ _
      (lookupField_copiedField _ _ _ _ (hne "logprobs" (by decide))),
    lookupField_append_of_none _ _ _
      (lookupField_copiedField _ _ _ _ (hne "top_logprobs" (by decide)))]
  exact lookupField_copiedField _ _ _ _ (hne "echo" (by decide))

/-- C8 witness: the amended theorem applied at a concrete request with an
unknown field. -/
theorem convertCompletionsRequest_unknown_keys_absent_witness :
    jget (convertCompletionsRequestToChatCompletions
        (JVal.obj [("prompt", .str "hello"), ("foo", .num 1)])) "foo" = none :=
  convertCompletionsRequest_unknown_keys_absent
    (JVal.obj [("prompt", .str "hello"), ("foo", .num 1)]) "foo" (by decide)

/-- C8 counterexample: the claim that unknown top-level fields are forwarded
unchanged fails — the input binds `foo`, the output does not. -/
theorem convertCompletionsRequest_drops_unknown_field :
    jget (JVal.obj [("prompt", .str "hello"), ("foo", .num 1)]) "foo" =
      some (.num 1) ∧
    jget (convertCompletionsRequestToChatCompletions
        (JVal.obj [("prompt", .str "hello"), ("foo", .num 1)])) "foo" = none :=
  ⟨rfl, rfl⟩

/-- Each object field is processed independently: the cons case of the loop is
the field's switch output followed by the rest's. -/
theorem sanitizeGeminiFields_cons :
    ∀ (k : String) (v : JVal) (rest : List (String × JVal)),
      sanitizeGeminiFields ((k, v) :: rest) =
        sanitizeGeminiField k v ++ sanitizeGeminiFields rest := by
  intro k v rest
  rfl

/-- A processed field emits either the literal `enum` key (the const rewrite)
or its own key, and in the latter case the key is not a const key. -/
theorem sanitizeGeminiFieldAux_key :
    ∀ (k : String) (v sv : JVal) (pv : List (String × JVal)) (p : String × JVal),
      p ∈ sanitizeGeminiFieldAux k v sv pv →
      (p.1 = "enum" ∧ lowerStr k = "const") ∨
        (p.1 = k ∧ ¬(lowerStr k = "const")) := by
  intro k v sv pv p hp
  unfold sanitizeGeminiFieldAux at hp
  by_cases hdrop : isDroppedKey (lowerStr k) = true
  · rw [if_pos hdrop] at hp
    simp at hp
  · rw [if_neg hdrop] at hp
    by_cases hconst : lowerStr k = "const"
    · rw [if_pos hconst] at hp
      cases v <;> simp at hp <;> try subst hp
      all_goals exact Or.inl ⟨rfl, hconst⟩
    · rw [if_neg hconst] at hp
      refine Or.inr ⟨?_, hconst⟩
      repeat' split at hp
      all_goals
        first
          | (simp only [List.mem_singleton] at hp; subst hp; rfl)
          | simp at hp

/-- C7 amended: a `const` key with a non-null value `v` is removed and an
`enum` key with the single-element list `[v]` is emitted in its place; a
`const` key with null value is removed without emitting `enum`; and no object
node of the sanitizer's output retains a const key. -/
theorem const_rewritten_to_singleton_enum :
    (∀ (k : String) (v : JVal),
       lowerStr k = "const" → v ≠ .null →
       sanitizeGeminiField k v = [("enum", .arr [v])]) ∧
    (∀ k : String, lowerStr k = "const" →
       sanitizeGeminiField k .null = []) ∧
    (∀ (fields : List (String × JVal)) (p : String × JVal),
       p ∈ sanitizeGeminiFields fields → ¬(lowerStr p.1 = "const")) := by
  refine ⟨?_, ?_, ?_⟩
  · intro k v hlk hv
    unfold sanitizeGeminiField sanitizeGeminiFieldAux
    rw [hlk]
    rw [if_neg (by decide : ¬isDroppedKey "const" = true)]
    rw [if_pos rfl]
    cases v with
    | null => exact absurd rfl hv
    | bool b => rfl
    | num q => rfl
    | str s => rfl
    | arr items => rfl
    | obj fields => rfl
  · intro k hlk
    unfold sanitizeGeminiField sanitizeGeminiFieldAux
    rw [hlk]
    rw [if_neg (by decide : ¬isDroppedKey "const" = true)]
    rw [if_pos rfl]
  · intro fields
    induction fields with
    | nil => intro p hp; simp [sanitizeGeminiFields] at hp
    | cons kv rest ih =>
      obtain ⟨k, v⟩ := kv
      intro p hp
      rw [sanitizeGeminiFields_cons] at hp
      rcases List.mem_append.mp hp with hp | hp
      · rcases sanitizeGeminiFieldAux_key k v _ _ p hp with ⟨he, _⟩ | ⟨hpk, hne⟩
        · rw [he]; decide
        · rw [hpk]
          exact hne
      · exact ih p hp

/-- C7 witness: the rewrite applied at a concrete non-null const. -/
theorem const_rewritten_to_singleton_enum_witness :
    sanitizeGeminiField "const" (.num 5) = [("enum", .arr [.num 5])] :=
  const_rewritten_to_singleton_enum.1 "const" (.num 5) (by decide)
    (by intro h; cases h)

/-- C7 counterexample: a `const` key bound to null is removed with no `enum`
emitted, so the claim's unconditional rewrite fails at value null. -/
theorem const_null_not_rewritten :
    sanitizeGeminiSchema (.obj [("const", .null)]) = .obj [] ∧
    jget (sanitizeGeminiSchema (.obj [("const", .null)])) "enum" = none :=
  ⟨rfl, rfl⟩

/-- C10: sanitizing a null node returns null, so an object key outside the
specially-handled keyword set whose value is null contributes nothing; in
particular a sole null-valued `foo` key sanitizes to the empty object, while
null entries inside an `enum` list survive the scalar filter. -/
theorem null_valued_generic_keys_dropped :
    sanitizeGeminiSchema .null = .null ∧
    (∀ k : String,
       isDroppedKey (lowerStr k) = false →
       ¬(lowerStr k = "const") → ¬(lowerStr k = "type") →
       ¬(lowerStr k = "enum") → ¬(lowerStr k = "required") →
       ¬(lowerStr k = "properties") → ¬(lowerStr k = "items") →
       ¬(lowerStr k = "additionalproperties") →
       sanitizeGeminiField k .null = []) ∧
    sanitizeGeminiSchema (.obj [("foo", .null)]) = .obj [] ∧
    sanitizeGeminiSchema (.obj [("enum", .arr [.str "a", .null])]) =
      .obj [("enum", .arr [.str "a", .null])] := by
  refine ⟨rfl, ?_, rfl, rfl⟩
  intro k h0 h1 h2 h3 h4 h5 h6 h7
  unfold sanitizeGeminiField sanitizeGeminiFieldAux
  rw [h0]
  rw [if_neg (by decide : ¬false = true)]
  rw [if_neg h1, if_neg h2, if_neg h3, if_neg h4, if_neg h5, if_neg h6,
    if_neg h7]
  rfl

/-- C10 witness: the generic-key part applied at the key `foo`. -/
theorem null_valued_generic_keys_dropped_witness :
    sanitizeGeminiField "foo" .null = [] :=
  null_valued_generic_keys_dropped.2.1 "foo" (by decide) (by decide) (by decide)
    (by decide) (by decide) (by decide) (by decide) (by decide)

/-- The executable per-choice test agrees with the specification-side
predicate. -/
theorem choiceHasContent_iff :
    ∀ c : JVal, choiceHasContent c = true ↔ ChoiceCarriesContent c := by
  intro c
  unfold choiceHasContent ChoiceCarriesContent
  rw [Bool.or_eq_true]
  constructor
  · intro h
    rcases h with h | h
    · left
      cases hd : jget c "delta" with
      | none => simp only [hd] at h; cases h
      | some d =>
        simp only [hd] at h
        cases hcv : jget d "content" with
        | none => simp only [hcv] at h; cases h
        | some cv =>
          simp only [hcv] at h
          exact ⟨d, cv, rfl, hcv, by simpa using h⟩
    · right
      cases hf : jget c "finish_reason" with
      | none => simp only [hf] at h; cases h
      | some f =>
        simp only [hf, Bool.and_eq_true] at h
        exact ⟨f, rfl, by simpa using h.1, by simpa using h.2⟩
  · intro h
    rcases h with ⟨d, cv, hd, hcv, hne⟩ | ⟨f, hf, h1, h2⟩
    · left
      simp only [hd, hcv]
      simpa using hne
    · right
      simp only [hf, Bool.and_eq_true]
      exact ⟨by simpa using h1, by simpa using h2⟩

/-- C6: the stream-chunk converter returns the skip sentinel exactly when no
choice of the chunk carries meaningful content (non-empty `delta.content` or a
non-null, non-empty `finish_reason`); every converted choice carries a `text`
key, whose value defaults to the empty string when `delta.content` is absent;
and a chunk with empty delta and `finish_reason` stop converts to a choice
with empty text and `finish_reason` stop. -/
theorem streamChunk_skip_iff_no_content_and_text_total :
    (∀ root : JVal,
       convertChatCompletionsStreamChunkToCompletions root = none ↔
         ∀ c ∈ objChoices root, ¬ChoiceCarriesContent c) ∧
    (∀ choice : JVal,
       jget (streamChoiceToCompletions choice) "text" =
         some (.str (streamChoiceText choice)) ∧
       ((∀ d, jget choice "delta" = some d → jget d "content" = none) →
         streamChoiceText choice = "")) ∧
    convertChatCompletionsStreamChunkToCompletions
        (.obj [("choices",
          .arr [.obj [("delta", .obj []), ("finish_reason", .str "stop")]])]) =
      some (.obj [("id", .str ""), ("object", .str "text_completion"),
        ("created", .num 0), ("model", .str ""),
        ("choices", .arr [.obj [("index", .num 0), ("text", .str ""),
          ("finish_reason", .str "stop")]])]) := by
  refine ⟨?_, ?_, rfl⟩
  · intro root
    unfold convertChatCompletionsStreamChunkToCompletions
    cases hc : chunkChoices root with
    | none =>
      simp only [hc, objChoices, Option.getD_none]
      constructor
      · intro _ c hcm
        cases hcm
      · intro _
        rfl
    | some cs =>
      simp only [hc, objChoices, Option.getD_some]
      by_cases ha : cs.any choiceHasContent = true
      · rw [if_pos ha]
        constructor
        · intro h
          cases h
        · intro hall
          obtain ⟨x, hx, hpx⟩ := List.any_eq_true.mp ha
          exact absurd ((choiceHasContent_iff x).mp hpx) (hall x hx)
      · rw [if_neg ha]
        constructor
        · intro _ c hcm hcar
          exact ha (List.any_eq_true.mpr
            ⟨c, hcm, (choiceHasContent_iff c).mpr hcar⟩)
        · intro _
          rfl
  · intro choice
    constructor
    · rfl
    · intro habs
      unfold streamChoiceText
      cases hd : jget choice "delta" with
      | none => simp only [hd]
      | some d => simp only [hd, habs d hd]

/-- C6 witness: the skip direction applied at a heartbeat chunk with an empty
delta and no finish reason. -/
theorem streamChunk_skip_iff_no_content_and_text_total_witness :
    convertChatCompletionsStreamChunkToCompletions
        (.obj [("choices", .arr [.obj [("delta", .obj [])]])]) = none := by
  apply (streamChunk_skip_iff_no_content_and_text_total.1 _).mpr
  intro c hcm
  have hcm2 : c ∈ [JVal.obj [("delta", JVal.obj [])]] := hcm
  simp only [List.mem_singleton] at hcm2
  subst hcm2
  rintro (⟨d, cv, hd, hcv, _⟩ | ⟨f, hf, _, _⟩)
  · have hd2 : some (JVal.obj []) = some d := hd
    cases hd2
    have hcv2 : (none : Option JVal) = some cv := hcv
    cases hcv2
  · have hf2 : (none : Option JVal) = some f := hf
    cases hf2

/-- C9 amended: empty or whitespace-only input sanitizes to the empty-object
text with no error; when the trimmed input fails JSON parsing, the sanitizer
returns the whitespace-trimmed original bytes together with the parse error as
ordinary return values, leaving the schema forwardable by the caller. -/
theorem sanitizeSchema_empty_and_parse_failure :
    (∀ raw : String, trimSpace raw = "" →
       SanitizeSchemaForGemini raw = ("\x7b\x7d", false)) ∧
    (∀ raw : String, ¬(trimSpace raw = "") →
       jsonUnmarshal (trimSpace raw) = none →
       SanitizeSchemaForGemini raw = (trimSpace raw, true)) := by
  constructor
  · intro raw h
    unfold SanitizeSchemaForGemini
    rw [h]
    rfl
  · intro raw h1 h2
    unfold SanitizeSchemaForGemini
    rw [if_neg h1]
    simp only [h2]

/-- C9 witness: the parse-failure branch applied at an input with surrounding
whitespace. -/
theorem sanitizeSchema_empty_and_parse_failure_witness :
    SanitizeSchemaForGemini "  @  " = ("@", true) := by
  have h := sanitizeSchema_empty_and_parse_failure.2 "  @  " (by decide) rfl
  exact h

/-- C9 counterexample: on parse failure the returned bytes are the trimmed
input, not the original input unchanged. -/
theorem sanitizeSchema_returns_trimmed_not_original :
    SanitizeSchemaForGemini "  @  " = ("@", true) ∧ ("@" : String) ≠ "  @  " :=
  ⟨rfl, by decide⟩

/-- Trimming from both ends is idempotent. -/
theorem trimList_idem : ∀ l : List Char, trimList (trimList l) = trimList l := by
  intro l
  show List.rdropWhile isSpaceChar
      (List.dropWhile isSpaceChar
        (List.rdropWhile isSpaceChar (List.dropWhile isSpaceChar l))) =
    List.rdropWhile isSpaceChar (List.dropWhile isSpaceChar l)
  have h1 : List.dropWhile isSpaceChar
      (List.rdropWhile isSpaceChar (List.dropWhile isSpaceChar l)) =
      List.rdropWhile isSpaceChar (List.dropWhile isSpaceChar l) := by
    rw [List.dropWhile_eq_self_iff]
    intro hl hp
    have hpre : List.rdropWhile isSpaceChar (List.dropWhile isSpaceChar l) <+:
        List.dropWhile isSpaceChar l :=
      List.rdropWhile_prefix isSpaceChar (List.dropWhile isSpaceChar l)
    have hl2 : 0 < (List.dropWhile isSpaceChar l).length := by
      have := hpre.length_le
      omega
    have hg : (List.rdropWhile isSpaceChar (List.dropWhile isSpaceChar l))[0] =
        (List.dropWhile isSpaceChar l)[0] := List.IsPrefix.getElem hpre hl
    apply List.dropWhile_get_zero_not isSpaceChar l hl2
    simpa only [List.get_eq_getElem, hg] using hp
  rw [h1, List.rdropWhile_idempotent]

/-- Go `strings.TrimSpace` is idempotent. -/
theorem trimSpace_idem : ∀ s : String, trimSpace (trimSpace s) = trimSpace s := by
  intro s
  show (⟨trimList (trimList s.data)⟩ : String) = ⟨trimList s.data⟩
  rw [trimList_idem]

/-- The normalization dispatch yields an allowed type name or drops. -/
theorem normalizeGeminiTypeAux_mem_or_empty :
    ∀ u : String,
      normalizeGeminiTypeAux u ∈ geminiAllowedTypes ∨
        normalizeGeminiTypeAux u = "" := by
  intro u
  unfold normalizeGeminiTypeAux
  split_ifs with h1 h2 h3 h4 h5 h6
  · exact Or.inl h1
  · exact Or.inl (by decide)
  · exact Or.inl (by decide)
  · exact Or.inl (by decide)
  · exact Or.inl (by decide)
  · exact Or.inl (by decide)
  · exact Or.inr rfl

/-- The six allowed names are fixed points of normalization. -/
theorem normalizeGeminiType_fixed :
    ∀ n : String, n ∈ geminiAllowedTypes → normalizeGeminiType n = n := by
  intro n hn
  simp only [geminiAllowedTypes, List.mem_cons, List.not_mem_nil, or_false]
    at hn
  rcases hn with rfl | rfl | rfl | rfl | rfl | rfl <;> decide

/-- A non-dropped normalization result is an allowed name. -/
theorem normalizeGeminiType_mem :
    ∀ t : String, ¬(normalizeGeminiType t = "") →
      normalizeGeminiType t ∈ geminiAllowedTypes := by
  intro t h
  rcases normalizeGeminiTypeAux_mem_or_empty (upperStr (trimSpace t)) with hm | he
  · exact hm
  · exact absurd he h

/-- Allowed names are non-empty. -/
theorem geminiAllowedTypes_ne_empty :
    ∀ n : String, n ∈ geminiAllowedTypes → ¬(n = "") := by
  intro n hn
  simp only [geminiAllowedTypes, List.mem_cons, List.not_mem_nil, or_false]
    at hn
  rcases hn with rfl | rfl | rfl | rfl | rfl | rfl <;> decide

/-- The first normalizable candidate is an allowed name. -/
theorem firstNormalizableType_mem :
    ∀ (cands : List JVal) (n : String),
      firstNormalizableType cands = some n → n ∈ geminiAllowedTypes := by
  intro cands
  induction cands with
  | nil => intro n h; cases h
  | cons c rest ih =>
    intro n h
    cases c with
    | str s =>
      simp only [firstNormalizableType] at h
      split at h
      · exact ih n h
      · rename_i hne
        obtain rfl : normalizeGeminiType s = n := by
          exact (Option.some.injEq _ _).mp h
        exact normalizeGeminiType_mem s hne
    | null => exact ih n h
    | bool b => exact ih n h
    | num q => exact ih n h
    | arr items => exact ih n h
    | obj fields => exact ih n h

/-- Every entry of a sanitized enum is scalar. -/
theorem sanitizeGeminiEnum_scalar :
    ∀ (v x : JVal), x ∈ sanitizeGeminiEnum v → isScalar x = true := by
  intro v x hx
  cases v with
  | arr items => exact List.of_mem_filter hx
  | null => cases hx
  | bool b => cases hx
  | num q => cases hx
  | str s => cases hx
  | obj fields => cases hx

/-- Refiltering a sanitized enum changes nothing. -/
theorem sanitizeGeminiEnum_filter_idem :
    ∀ v : JVal, (sanitizeGeminiEnum v).filter isScalar = sanitizeGeminiEnum v :=
  fun v => List.filter_eq_self.mpr (fun x hx => sanitizeGeminiEnum_scalar v x hx)

/-- Every entry of a sanitized required list is trimmed and non-empty. -/
theorem sanitizeGeminiRequired_mem :
    ∀ (v : JVal) (s : String), s ∈ sanitizeGeminiRequired v →
      trimSpace s = s ∧ ¬(s = "") := by
  intro v s hs
  cases v with
  | arr items =>
    have hs2 : s ∈ items.filterMap requiredEntry := hs
    rw [List.mem_filterMap] at hs2
    obtain ⟨a, _, hfa⟩ := hs2
    cases a with
    | str t =>
      have hfa2 : (if trimSpace t = "" then none else some (trimSpace t)) =
          some s := hfa
      by_cases ht : trimSpace t = ""
      · rw [if_pos ht] at hfa2
        cases hfa2
      · rw [if_neg ht] at hfa2
        obtain rfl : trimSpace t = s := (Option.some.injEq _ _).mp hfa2
        exact ⟨trimSpace_idem t, ht⟩
    | null => cases hfa
    | bool b => cases hfa
    | num q => cases hfa
    | arr its => cases hfa
    | obj fs => cases hfa
  | null => cases hs
  | bool b => cases hs
  | num q => cases hs
  | str t => cases hs
  | obj fields => cases hs

/-- Re-sanitizing a required list of trimmed, non-empty strings returns it
unchanged. -/
theorem sanitizeGeminiRequired_of_clean :
    ∀ r : List String, (∀ s ∈ r, trimSpace s = s ∧ ¬(s = "")) →
      sanitizeGeminiRequired (.arr (r.map .str)) = r := by
  intro r hr
  induction r with
  | nil => rfl
  | cons a rest ih =>
    obtain ⟨ha1, ha2⟩ := hr a (List.mem_cons_self ..)
    have hrest : List.filterMap requiredEntry (rest.map JVal.str) = rest :=
      ih (fun s hsm => hr s (List.mem_cons_of_mem _ hsm))
    have he : requiredEntry (JVal.str a) = some a := by
      show (if trimSpace a = "" then none else some (trimSpace a)) = some a
      rw [ha1, if_neg ha2]
    show List.filterMap requiredEntry (List.map JVal.str (a :: rest)) = a :: rest
    rw [List.map_cons, List.filterMap_cons, he]
    exact congrArg (a :: ·) hrest

/-- The required-list refiltering of the sanitizer's own output is the
identity. -/
theorem sanitizeGeminiRequired_idem :
    ∀ v : JVal,
      sanitizeGeminiRequired (.arr ((sanitizeGeminiRequired v).map .str)) =
        sanitizeGeminiRequired v :=
  fun v => sanitizeGeminiRequired_of_clean _
    (fun s hs => sanitizeGeminiRequired_mem v s hs)

/-- A singleton field list processes to the field's switch output. -/
theorem sanitizeGeminiFields_singleton :
    ∀ (k : String) (v : JVal),
      sanitizeGeminiFields [(k, v)] = sanitizeGeminiField k v := by
  intro k v
  rw [sanitizeGeminiFields_cons]
  rw [show sanitizeGeminiFields [] = [] from rfl, List.append_nil]

/-- Field processing distributes over append. -/
theorem sanitizeGeminiFields_append :
    ∀ l1 l2 : List (String × JVal),
      sanitizeGeminiFields (l1 ++ l2) =
        sanitizeGeminiFields l1 ++ sanitizeGeminiFields l2 := by
  intro l1 l2
  induction l1 with
  | nil => rfl
  | cons kv rest ih =>
    obtain ⟨k, v⟩ := kv
    rw [List.cons_append, sanitizeGeminiFields_cons, sanitizeGeminiFields_cons,
      ih, List.append_assoc]

/-- The cons equation of the array-element loop. -/
theorem sanitizeGeminiItems_cons :
    ∀ (v : JVal) (rest : List JVal),
      sanitizeGeminiItems (v :: rest) =
        (match sanitizeGeminiSchema v with
         | .null => []
         | s => [s]) ++ sanitizeGeminiItems rest := by
  intro v rest
  rfl

/-- Element processing distributes over append. -/
theorem sanitizeGeminiItems_append :
    ∀ l1 l2 : List JVal,
      sanitizeGeminiItems (l1 ++ l2) =
        sanitizeGeminiItems l1 ++ sanitizeGeminiItems l2 := by
  intro l1 l2
  induction l1 with
  | nil => rfl
  | cons v rest ih =>
    rw [List.cons_append, sanitizeGeminiItems_cons, sanitizeGeminiItems_cons,
      ih, List.append_assoc]

/-- The cons equation of the properties loop. -/
theorem sanitizeGeminiProps_cons :
    ∀ (pk : String) (pv : JVal) (rest : List (String × JVal)),
      sanitizeGeminiProps ((pk, pv) :: rest) =
        (match sanitizeGeminiSchema pv with
         | .null => []
         | s => [(pk, s)]) ++ sanitizeGeminiProps rest := by
  intro pk pv rest
  rfl

/-- Property processing distributes over append. -/
theorem sanitizeGeminiProps_append :
    ∀ l1 l2 : List (String × JVal),
      sanitizeGeminiProps (l1 ++ l2) =
        sanitizeGeminiProps l1 ++ sanitizeGeminiProps l2 := by
  intro l1 l2
  induction l1 with
  | nil => rfl
  | cons kv rest ih =>
    obtain ⟨pk, pv⟩ := kv
    rw [List.cons_append, sanitizeGeminiProps_cons, sanitizeGeminiProps_cons,
      ih, List.append_assoc]

/-- A dropped key contributes nothing. -/
theorem sanitizeGeminiField_dropped :
    ∀ (k : String) (v : JVal), isDroppedKey (lowerStr k) = true →
      sanitizeGeminiField k v = [] := by
  intro k v h
  unfold sanitizeGeminiField sanitizeGeminiFieldAux
  rw [if_pos h]

/-- A const key with non-null value rewrites to a singleton enum. -/
theorem sanitizeGeminiField_const :
    ∀ (k : String) (v : JVal), lowerStr k = "const" → v ≠ .null →
      sanitizeGeminiField k v = [("enum", .arr [v])] := by
  intro k v hlk hv
  unfold sanitizeGeminiField sanitizeGeminiFieldAux
  rw [hlk]
  rw [if_neg (by decide : ¬isDroppedKey "const" = true)]
  rw [if_pos rfl]
  cases v with
  | null => exact absurd rfl hv
  | bool b => rfl
  | num q => rfl
  | str s => rfl
  | arr items => rfl
  | obj fields => rfl

/-- A null-valued const key is removed without emitting enum. -/
theorem sanitizeGeminiField_const_null :
    ∀ k : String, lowerStr k = "const" →
      sanitizeGeminiField k .null = [] := by
  intro k hlk
  unfold sanitizeGeminiField sanitizeGeminiFieldAux
  rw [hlk]
  rw [if_neg (by decide : ¬isDroppedKey "const" = true)]
  rw [if_pos rfl]

/-- Second pass of an `enum` field whose value is an already-filtered,
non-empty scalar list: unchanged. -/
theorem sanitizeGeminiField_enum_second :
    ∀ (k : String) (e : List JVal), lowerStr k = "enum" →
      e.filter isScalar = e → e ≠ [] →
      sanitizeGeminiField k (.arr e) = [(k, .arr e)] := by
  intro k e hk he hne
  unfold sanitizeGeminiField sanitizeGeminiFieldAux
  rw [hk]
  rw [if_neg (by decide : ¬isDroppedKey "enum" = true)]
  rw [if_neg (by decide : ¬("enum" = "const"))]
  rw [if_neg (by decide : ¬("enum" = "type"))]
  rw [if_pos rfl]
  rw [show sanitizeGeminiEnum (.arr e) = e.filter isScalar from rfl, he]
  cases e with
  | nil => exact absurd rfl hne
  | cons x rest => rfl

/-- Second pass of a `required` field built from the sanitizer's own output:
unchanged. -/
theorem sanitizeGeminiField_required_second :
    ∀ (k : String) (r : List String), lowerStr k = "required" →
      sanitizeGeminiRequired (.arr (r.map .str)) = r → r ≠ [] →
      sanitizeGeminiField k (.arr (r.map .str)) = [(k, .arr (r.map .str))] := by
  intro k r hk hr hne
  unfold sanitizeGeminiField sanitizeGeminiFieldAux
  rw [hk]
  rw [if_neg (by decide : ¬isDroppedKey "required" = true)]
  rw [if_neg (by decide : ¬("required" = "const"))]
  rw [if_neg (by decide : ¬("required" = "type"))]
  rw [if_neg (by decide : ¬("required" = "enum"))]
  rw [if_pos rfl]
  rw [hr]
  cases r with
  | nil => exact absurd rfl hne
  | cons x rest => rfl

/-- Second pass of a `type` field holding a fixed-point type name:
unchanged. -/
theorem sanitizeGeminiField_type_second :
    ∀ (k n : String), lowerStr k = "type" → normalizeGeminiType n = n →
      ¬(n = "") → sanitizeGeminiField k (.str n) = [(k, .str n)] := by
  intro k n hk hfix hne
  unfold sanitizeGeminiField sanitizeGeminiFieldAux
  rw [hk]
  rw [if_neg (by decide : ¬isDroppedKey "type" = true)]
  rw [if_neg (by decide : ¬("type" = "const"))]
  rw [if_pos rfl]
  show (if normalizeGeminiType n = "" then []
    else [(k, JVal.str (normalizeGeminiType n))]) = [(k, JVal.str n)]
  rw [hfix, if_neg hne]

/-- Second pass of a `properties` field whose sub-map is a fixed point:
unchanged. -/
theorem sanitizeGeminiField_properties_second :
    ∀ (k : String) (pv : List (String × JVal)), lowerStr k = "properties" →
      sanitizeGeminiProps pv = pv →
      sanitizeGeminiField k (.obj pv) = [(k, .obj pv)] := by
  intro k pv hk hpv
  unfold sanitizeGeminiField sanitizeGeminiFieldAux
  rw [hk]
  rw [if_neg (by decide : ¬isDroppedKey "properties" = true)]
  rw [if_neg (by decide : ¬("properties" = "const"))]
  rw [if_neg (by decide : ¬("properties" = "type"))]
  rw [if_neg (by decide : ¬("properties" = "enum"))]
  rw [if_neg (by decide : ¬("properties" = "required"))]
  rw [if_pos rfl]
  rw [show sanitizeGeminiPropsOf (JVal.obj pv) = sanitizeGeminiProps pv from rfl,
    hpv]

/-- Second pass of an `additionalProperties` field kept as `false`:
unchanged. -/
theorem sanitizeGeminiField_addprops_second :
    ∀ k : String, lowerStr k = "additionalproperties" →
      sanitizeGeminiField k (.bool false) = [(k, .bool false)] := by
  intro k hk
  unfold sanitizeGeminiField sanitizeGeminiFieldAux
  rw [hk]
  rw [if_neg (by decide : ¬isDroppedKey "additionalproperties" = true)]
  rw [if_neg (by decide : ¬("additionalproperties" = "const"))]
  rw [if_neg (by decide : ¬("additionalproperties" = "type"))]
  rw [if_neg (by decide : ¬("additionalproperties" = "enum"))]
  rw [if_neg (by decide : ¬("additionalproperties" = "required"))]
  rw [if_neg (by decide : ¬("additionalproperties" = "properties"))]
  rw [if_neg (by decide : ¬("additionalproperties" = "items"))]
  rw [if_pos rfl]

/-- Second pass of an `items` or generic field whose value is a non-null
fixed point of the sanitizer: unchanged. -/
theorem sanitizeGeminiField_value_passthrough :
    ∀ (k : String) (s : JVal),
      isDroppedKey (lowerStr k) = false →
      ¬(lowerStr k = "const") → ¬(lowerStr k = "type") →
      ¬(lowerStr k = "enum") → ¬(lowerStr k = "required") →
      ¬(lowerStr k = "properties") → ¬(lowerStr k = "additionalproperties") →
      sanitizeGeminiSchema s = s → s ≠ .null →
      sanitizeGeminiField k s = [(k, s)] := by
  intro k s h0 h1 h2 h3 h4 h5 h7 hs hnn
  unfold sanitizeGeminiField sanitizeGeminiFieldAux
  rw [h0]
  rw [if_neg (by decide : ¬false = true)]
  rw [if_neg h1, if_neg h2, if_neg h3, if_neg h4, if_neg h5]
  by_cases h6 : lowerStr k = "items"
  · rw [if_pos h6, hs]
    cases s with
    | null => exact absurd rfl hnn
    | bool b => rfl
    | num q => rfl
    | str t => rfl
    | arr items => rfl
    | obj fields => rfl
  · rw [if_neg h6, if_neg h7, hs]
    cases s with
    | null => exact absurd rfl hnn
    | bool b => rfl
    | num q => rfl
    | str t => rfl
    | arr items => rfl
    | obj fields => rfl

/-- Evaluation of a `type` field's switch branch. -/
theorem sanitizeGeminiField_type_eval :
    ∀ (k : String) (v : JVal), lowerStr k = "type" →
      sanitizeGeminiField k v =
        (match v with
         | .str t =>
           if normalizeGeminiType t = "" then []
           else [(k, .str (normalizeGeminiType t))]
         | .arr cands =>
           (match firstNormalizableType cands with
            | some n => [(k, .str n)]
            | none => [])
         | _ => []) := by
  intro k v hk
  unfold sanitizeGeminiField sanitizeGeminiFieldAux
  rw [hk]
  rw [if_neg (by decide : ¬isDroppedKey "type" = true)]
  rw [if_neg (by decide : ¬("type" = "const"))]
  rw [if_pos rfl]

/-- Evaluation of an `enum` field's switch branch. -/
theorem sanitizeGeminiField_enum_eval :
    ∀ (k : String) (v : JVal), lowerStr k = "enum" →
      sanitizeGeminiField k v =
        (match sanitizeGeminiEnum v with
         | [] => []
         | e => [(k, .arr e)]) := by
  intro k v hk
  unfold sanitizeGeminiField sanitizeGeminiFieldAux
  rw [hk]
  rw [if_neg (by decide : ¬isDroppedKey "enum" = true)]
  rw [if_neg (by decide : ¬("enum" = "const"))]
  rw [if_neg (by decide : ¬("enum" = "type"))]
  rw [if_pos rfl]

/-- Evaluation of a `required` field's switch branch. -/
theorem sanitizeGeminiField_required_eval :
    ∀ (k : String) (v : JVal), lowerStr k = "required" →
      sanitizeGeminiField k v =
        (match sanitizeGeminiRequired v with
         | [] => []
         | r => [(k, .arr (r.map .str))]) := by
  intro k v hk
  unfold sanitizeGeminiField sanitizeGeminiFieldAux
  rw [hk]
  rw [if_neg (by decide : ¬isDroppedKey "required" = true)]
  rw [if_neg (by decide : ¬("required" = "const"))]
  rw [if_neg (by decide : ¬("required" = "type"))]
  rw [if_neg (by decide : ¬("required" = "enum"))]
  rw [if_pos rfl]

/-- Evaluation of a `properties` field's switch branch. -/
theorem sanitizeGeminiField_properties_eval :
    ∀ (k : String) (v : JVal), lowerStr k = "properties" →
      sanitizeGeminiField k v =
        (match v with
         | .obj _ => [(k, .obj (sanitizeGeminiPropsOf v))]
         | _ => []) := by
  intro k v hk
  unfold sanitizeGeminiField sanitizeGeminiFieldAux
  rw [hk]
  rw [if_neg (by decide : ¬isDroppedKey "properties" = true)]
  rw [if_neg (by decide : ¬("properties" = "const"))]
  rw [if_neg (by decide : ¬("properties" = "type"))]
  rw [if_neg (by decide : ¬("properties" = "enum"))]
  rw [if_neg (by decide : ¬("properties" = "required"))]
  rw [if_pos rfl]

/-- Evaluation of an `additionalProperties` field's switch branch. -/
theorem sanitizeGeminiField_addprops_eval :
    ∀ (k : String) (v : JVal), lowerStr k = "additionalproperties" →
      sanitizeGeminiField k v =
        (match v with
         | .bool false => [(k, .bool false)]
         | _ => []) := by
  intro k v hk
  unfold sanitizeGeminiField sanitizeGeminiFieldAux
  rw [hk]
  rw [if_neg (by decide : ¬isDroppedKey "additionalproperties" = true)]
  rw [if_neg (by decide : ¬("additionalproperties" = "const"))]
  rw [if_neg (by decide : ¬("additionalproperties" = "type"))]
  rw [if_neg (by decide : ¬("additionalproperties" = "enum"))]
  rw [if_neg (by decide : ¬("additionalproperties" = "required"))]
  rw [if_neg (by decide : ¬("additionalproperties" = "properties"))]
  rw [if_neg (by decide : ¬("additionalproperties" = "items"))]
  rw [if_pos rfl]

/-- Evaluation of an `items` field's switch branch. -/
theorem sanitizeGeminiField_items_eval :
    ∀ (k : String) (v : JVal), lowerStr k = "items" →
      sanitizeGeminiField k v =
        (match sanitizeGeminiSchema v with
         | .null => []
         | s => [(k, s)]) := by
  intro k v hk
  unfold sanitizeGeminiField sanitizeGeminiFieldAux
  rw [hk]
  rw [if_neg (by decide : ¬isDroppedKey "items" = true)]
  rw [if_neg (by decide : ¬("items" = "const"))]
  rw [if_neg (by decide : ¬("items" = "type"))]
  rw [if_neg (by decide : ¬("items" = "enum"))]
  rw [if_neg (by decide : ¬("items" = "required"))]
  rw [if_neg (by decide : ¬("items" = "properties"))]
  rw [if_pos rfl]

/-- Evaluation of a generic field's switch branch. -/
theorem sanitizeGeminiField_generic_eval :
    ∀ (k : String) (v : JVal),
      isDroppedKey (lowerStr k) = false →
      ¬(lowerStr k = "const") → ¬(lowerStr k = "type") →
      ¬(lowerStr k = "enum") → ¬(lowerStr k = "required") →
      ¬(lowerStr k = "properties") → ¬(lowerStr k = "items") →
      ¬(lowerStr k = "additionalproperties") →
      sanitizeGeminiField k v =
        (match sanitizeGeminiSchema v with
         | .null => []
         | s => [(k, s)]) := by
  intro k v h0 h1 h2 h3 h4 h5 h6 h7
  unfold sanitizeGeminiField sanitizeGeminiFieldAux
  rw [h0]
  rw [if_neg (by decide : ¬false = true)]
  rw [if_neg h1, if_neg h2, if_neg h3, if_neg h4, if_neg h5, if_neg h6,
    if_neg h7]

/-- Re-processing one processed field changes nothing, given that the
sanitizer is idempotent on the field's value, that the sanitized properties
sub-map is a fixed point, and that a const value is scalar. -/
theorem sanitizeGeminiField_idem :
    ∀ (k : String) (v : JVal),
      sanitizeGeminiSchema (sanitizeGeminiSchema v) = sanitizeGeminiSchema v →
      sanitizeGeminiProps (sanitizeGeminiPropsOf v) = sanitizeGeminiPropsOf v →
      (lowerStr k = "const" → isScalar v = true) →
      sanitizeGeminiFields (sanitizeGeminiField k v) = sanitizeGeminiField k v := by
  intro k v hs hp hc
  by_cases h0 : isDroppedKey (lowerStr k) = true
  · rw [sanitizeGeminiField_dropped k v h0]
    rfl
  replace h0 : isDroppedKey (lowerStr k) = false := by
    cases hb : isDroppedKey (lowerStr k) with
    | true => exact absurd hb h0
    | false => rfl
  by_cases h1 : lowerStr k = "const"
  · by_cases hv : v = .null
    · subst hv
      rw [sanitizeGeminiField_const_null k h1]
      rfl
    · rw [sanitizeGeminiField_const k v h1 hv, sanitizeGeminiFields_singleton]
      refine sanitizeGeminiField_enum_second "enum" [v] (by decide) ?_ (by simp)
      simp [List.filter, hc h1]
  by_cases h2 : lowerStr k = "type"
  · rw [sanitizeGeminiField_type_eval k v h2]
    cases v with
    | null => rfl
    | bool b => rfl
    | num q => rfl
    | obj fields => rfl
    | str t =>
      show sanitizeGeminiFields
          (if normalizeGeminiType t = "" then []
           else [(k, .str (normalizeGeminiType t))]) =
        (if normalizeGeminiType t = "" then []
         else [(k, .str (normalizeGeminiType t))])
      by_cases hn : normalizeGeminiType t = ""
      · rw [if_pos hn]
        rfl
      · rw [if_neg hn, sanitizeGeminiFields_singleton]
        exact sanitizeGeminiField_type_second k _ h2
          (normalizeGeminiType_fixed _ (normalizeGeminiType_mem t hn)) hn
    | arr cands =>
      show sanitizeGeminiFields
          (match firstNormalizableType cands with
           | some n => [(k, .str n)]
           | none => []) =
        (match firstNormalizableType cands with
         | some n => [(k, .str n)]
         | none => [])
      cases hfn : firstNormalizableType cands with
      | none => rfl
      | some n =>
        rw [sanitizeGeminiFields_singleton]
        have hmem := firstNormalizableType_mem cands n hfn
        exact sanitizeGeminiField_type_second k n h2
          (normalizeGeminiType_fixed n hmem) (geminiAllowedTypes_ne_empty n hmem)
  by_cases h3 : lowerStr k = "enum"
  · rw [sanitizeGeminiField_enum_eval k v h3]
    cases he : sanitizeGeminiEnum v with
    | nil => rfl
    | cons x rest =>
      rw [sanitizeGeminiFields_singleton]
      refine sanitizeGeminiField_enum_second k (x :: rest) h3 ?_ (by simp)
      rw [← he]
      exact sanitizeGeminiEnum_filter_idem v
  by_cases h4 : lowerStr k = "required"
  · rw [sanitizeGeminiField_required_eval k v h4]
    cases hr : sanitizeGeminiRequired v with
    | nil => rfl
    | cons x rest =>
      rw [sanitizeGeminiFields_singleton]
      refine sanitizeGeminiField_required_second k (x :: rest) h4 ?_ (by simp)
      rw [← hr]
      exact sanitizeGeminiRequired_idem v
  by_cases h5 : lowerStr k = "properties"
  · rw [sanitizeGeminiField_properties_eval k v h5]
    cases v with
    | null => rfl
    | bool b => rfl
    | num q => rfl
    | str t => rfl
    | arr items => rfl
    | obj props =>
      rw [sanitizeGeminiFields_singleton]
      exact sanitizeGeminiField_properties_second k _ h5 hp
  by_cases h7 : lowerStr k = "additionalproperties"
  · rw [sanitizeGeminiField_addprops_eval k v h7]
    cases v with
    | null => rfl
    | num q => rfl
    | str t => rfl
    | arr items => rfl
    | obj fields => rfl
    | bool b =>
      cases b with
      | true => rfl
      | false =>
        rw [sanitizeGeminiFields_singleton]
        exact sanitizeGeminiField_addprops_second k h7
  have heval : sanitizeGeminiField k v =
      (match sanitizeGeminiSchema v with
       | .null => []
       | s => [(k, s)]) := by
    by_cases h6 : lowerStr k = "items"
    · exact sanitizeGeminiField_items_eval k v h6
    · exact sanitizeGeminiField_generic_eval k v h0 h1 h2 h3 h4 h5 h6 h7
  rw [heval]
  cases hsv : sanitizeGeminiSchema v with
  | null => rfl
  | bool b =>
    rw [hsv] at hs
    show sanitizeGeminiFields [(k, JVal.bool b)] = [(k, JVal.bool b)]
    rw [sanitizeGeminiFields_singleton]
    exact sanitizeGeminiField_value_passthrough k _ h0 h1 h2 h3 h4 h5 h7 hs
      (by intro h; cases h)
  | num q =>
    rw [hsv] at hs
    show sanitizeGeminiFields [(k, JVal.num q)] = [(k, JVal.num q)]
    rw [sanitizeGeminiFields_singleton]
    exact sanitizeGeminiField_value_passthrough k _ h0 h1 h2 h3 h4 h5 h7 hs
      (by intro h; cases h)
  | str t =>
    rw [hsv] at hs
    show sanitizeGeminiFields [(k, JVal.str t)] = [(k, JVal.str t)]
    rw [sanitizeGeminiFields_singleton]
    exact sanitizeGeminiField_value_passthrough k _ h0 h1 h2 h3 h4 h5 h7 hs
      (by intro h; cases h)
  | arr items =>
    rw [hsv] at hs
    show sanitizeGeminiFields [(k, JVal.arr items)] = [(k, JVal.arr items)]
    rw [sanitizeGeminiFields_singleton]
    exact sanitizeGeminiField_value_passthrough k _ h0 h1 h2 h3 h4 h5 h7 hs
      (by intro h; cases h)
  | obj fields =>
    rw [hsv] at hs
    show sanitizeGeminiFields [(k, JVal.obj fields)] = [(k, JVal.obj fields)]
    rw [sanitizeGeminiFields_singleton]
    exact sanitizeGeminiField_value_passthrough k _ h0 h1 h2 h3 h4 h5 h7 hs
      (by intro h; cases h)

/-- `constScalar` restricted to an object's fields, per member. -/
theorem constScalarFields_mem :
    ∀ (fields : List (String × JVal)) (p : String × JVal),
      constScalarFields fields = true → p ∈ fields →
      constScalar p.2 = true ∧ (lowerStr p.1 = "const" → isScalar p.2 = true) := by
  intro fields
  induction fields with
  | nil => intro p _ hp; cases hp
  | cons kv rest ih =>
    intro p h hp
    obtain ⟨k, v⟩ := kv
    have h2 : ((!decide (lowerStr k = "const") || isScalar v) && constScalar v &&
        constScalarFields rest) = true := h
    rw [Bool.and_eq_true, Bool.and_eq_true] at h2
    obtain ⟨⟨hcv, hgv⟩, hrest⟩ := h2
    rcases List.mem_cons.mp hp with rfl | hp2
    · refine ⟨hgv, ?_⟩
      intro hk
      rw [Bool.or_eq_true] at hcv
      rcases hcv with hnc | hsc
      · exact absurd hk (by simpa using hnc)
      · exact hsc
    · exact ih p hrest hp2

/-- `constScalar` restricted to an array's elements, per member. -/
theorem constScalarItems_mem :
    ∀ (items : List JVal) (w : JVal),
      constScalarItems items = true → w ∈ items → constScalar w = true := by
  intro items
  induction items with
  | nil => intro w _ hw; cases hw
  | cons x rest ih =>
    intro w h hw
    have h2 : (constScalar x && constScalarItems rest) = true := h
    rw [Bool.and_eq_true] at h2
    rcases List.mem_cons.mp hw with rfl | hw2
    · exact h2.1
    · exact ih w h2.2 hw2

/-- Re-processing processed array elements changes nothing, given the
sanitizer is idempotent on each element. -/
theorem sanitizeGeminiItems_idem_of :
    ∀ items : List JVal,
      (∀ w ∈ items,
        sanitizeGeminiSchema (sanitizeGeminiSchema w) = sanitizeGeminiSchema w) →
      sanitizeGeminiItems (sanitizeGeminiItems items) =
        sanitizeGeminiItems items := by
  intro items hidem
  induction items with
  | nil => rfl
  | cons w rest ih =>
    have hw := hidem w (List.mem_cons_self ..)
    have hr := ih (fun x hx => hidem x (List.mem_cons_of_mem _ hx))
    rw [sanitizeGeminiItems_cons w rest, sanitizeGeminiItems_append, hr]
    congr 1
    cases hsw : sanitizeGeminiSchema w with
    | null => rfl
    | bool b => rfl
    | num q => rfl
    | str t => rfl
    | arr its =>
      rw [hsw] at hw
      show sanitizeGeminiItems [JVal.arr its] = [JVal.arr its]
      rw [sanitizeGeminiItems_cons, hw]
      rfl
    | obj fs =>
      rw [hsw] at hw
      show sanitizeGeminiItems [JVal.obj fs] = [JVal.obj fs]
      rw [sanitizeGeminiItems_cons, hw]
      rfl

/-- Re-processing a processed properties map changes nothing, given the
sanitizer is idempotent on each property value. -/
theorem sanitizeGeminiProps_idem_of :
    ∀ props : List (String × JVal),
      (∀ q ∈ props,
        sanitizeGeminiSchema (sanitizeGeminiSchema q.2) =
          sanitizeGeminiSchema q.2) →
      sanitizeGeminiProps (sanitizeGeminiProps props) =
        sanitizeGeminiProps props := by
  intro props hidem
  induction props with
  | nil => rfl
  | cons kv rest ih =>
    obtain ⟨pk, pv⟩ := kv
    have hw := hidem (pk, pv) (List.mem_cons_self ..)
    have hr := ih (fun q hq => hidem q (List.mem_cons_of_mem _ hq))
    rw [sanitizeGeminiProps_cons pk pv rest, sanitizeGeminiProps_append, hr]
    congr 1
    cases hsw : sanitizeGeminiSchema pv with
    | null => rfl
    | bool b => rfl
    | num q => rfl
    | str t => rfl
    | arr its =>
      rw [hsw] at hw
      show sanitizeGeminiProps [(pk, JVal.arr its)] = [(pk, JVal.arr its)]
      rw [sanitizeGeminiProps_cons, hw]
      rfl
    | obj fs =>
      rw [hsw] at hw
      show sanitizeGeminiProps [(pk, JVal.obj fs)] = [(pk, JVal.obj fs)]
      rw [sanitizeGeminiProps_cons, hw]
      rfl

/-- Re-processing processed object fields changes nothing, given per-field
idempotence, fixed properties sub-maps and scalar const values. -/
theorem sanitizeGeminiFields_idem_of :
    ∀ fields : List (String × JVal),
      (∀ p ∈ fields,
        sanitizeGeminiSchema (sanitizeGeminiSchema p.2) =
          sanitizeGeminiSchema p.2) →
      (∀ p ∈ fields,
        sanitizeGeminiProps (sanitizeGeminiPropsOf p.2) =
          sanitizeGeminiPropsOf p.2) →
      (∀ p ∈ fields, lowerStr p.1 = "const" → isScalar p.2 = true) →
      sanitizeGeminiFields (sanitizeGeminiFields fields) =
        sanitizeGeminiFields fields := by
  intro fields
  induction fields with
  | nil => intro _ _ _; rfl
  | cons kv rest ih =>
    intro hA hB hC
    obtain ⟨k, v⟩ := kv
    rw [sanitizeGeminiFields_cons k v rest, sanitizeGeminiFields_append,
      ih (fun p hp => hA p (List.mem_cons_of_mem _ hp))
        (fun p hp => hB p (List.mem_cons_of_mem _ hp))
        (fun p hp => hC p (List.mem_cons_of_mem _ hp))]
    congr 1
    exact sanitizeGeminiField_idem k v
      (hA (k, v) (List.mem_cons_self ..))
      (hB (k, v) (List.mem_cons_self ..))
      (hC (k, v) (List.mem_cons_self ..))

/-- The value of a member field is smaller than the object node. -/
theorem sizeOf_snd_lt_obj :
    ∀ (fields : List (String × JVal)) (p : String × JVal), p ∈ fields →
      sizeOf p.2 < sizeOf (JVal.obj fields) := by
  intro fields p hp
  obtain ⟨a, b⟩ := p
  have h1 : sizeOf ((a, b) : String × JVal) < sizeOf fields :=
    List.sizeOf_lt_of_mem hp
  have h2 : sizeOf ((a, b) : String × JVal) = 1 + sizeOf a + sizeOf b := rfl
  have h3 : sizeOf (JVal.obj fields) = 1 + sizeOf fields := by
    simp [JVal.obj.sizeOf_spec]
  show sizeOf b < sizeOf (JVal.obj fields)
  omega

/-- An element is smaller than the array node. -/
theorem sizeOf_mem_lt_arr :
    ∀ (items : List JVal) (w : JVal), w ∈ items →
      sizeOf w < sizeOf (JVal.arr items) := by
  intro items w hw
  have h1 : sizeOf w < sizeOf items := List.sizeOf_lt_of_mem hw
  have h2 : sizeOf (JVal.arr items) = 1 + sizeOf items := by
    simp [JVal.arr.sizeOf_spec]
  omega

/-- Size-bounded idempotence of the sanitizer on documents whose const values
are scalar. -/
theorem sanitizeGemini_idem_aux :
    ∀ n : Nat, ∀ v : JVal, sizeOf v < n → constScalar v = true →
      sanitizeGeminiSchema (sanitizeGeminiSchema v) = sanitizeGeminiSchema v := by
  intro n
  induction n with
  | zero => intro v h _; exact absurd h (Nat.not_lt_zero _)
  | succ n ih =>
    intro v hsize hgood
    cases v with
    | null => rfl
    | bool b => rfl
    | num q => rfl
    | str s => rfl
    | arr items =>
      show JVal.arr (sanitizeGeminiItems (sanitizeGeminiItems items)) =
        JVal.arr (sanitizeGeminiItems items)
      refine congrArg JVal.arr (sanitizeGeminiItems_idem_of items ?_)
      intro w hw
      have hsw := sizeOf_mem_lt_arr items w hw
      exact ih w (by omega) (constScalarItems_mem items w hgood hw)
    | obj fields =>
      show JVal.obj (sanitizeGeminiFields (sanitizeGeminiFields fields)) =
        JVal.obj (sanitizeGeminiFields fields)
      refine congrArg JVal.obj (sanitizeGeminiFields_idem_of fields ?_ ?_ ?_)
      · intro p hp
        have hsp := sizeOf_snd_lt_obj fields p hp
        exact ih p.2 (by omega) (constScalarFields_mem fields p hgood hp).1
      · intro p hp
        have hsp := sizeOf_snd_lt_obj fields p hp
        have hgp : constScalar p.2 = true :=
          (constScalarFields_mem fields p hgood hp).1
        cases hv : p.2 with
        | null => rfl
        | bool b => rfl
        | num q => rfl
        | str t => rfl
        | arr its => rfl
        | obj props =>
          show sanitizeGeminiProps (sanitizeGeminiProps props) =
            sanitizeGeminiProps props
          refine sanitizeGeminiProps_idem_of props ?_
          intro q hq
          have hq1 : sizeOf q.2 < sizeOf (JVal.obj props) :=
            sizeOf_snd_lt_obj props q hq
          have hq2 : constScalarFields props = true := by
            rw [hv] at hgp
            exact hgp
          rw [hv] at hsp
          refine ih q.2 (by omega) (constScalarFields_mem props q hq2 hq).1
      · intro p hp
        exact (constScalarFields_mem fields p hgood hp).2

/-- C4 counterexample: sanitizing `«const: []»` yields an enum holding a
non-scalar entry, which a second sanitization filters away, so
Sanitize(Sanitize(S)) differs from Sanitize(S). -/
theorem sanitizeGemini_not_idempotent :
    sanitizeGeminiSchema (.obj [("const", .arr [])]) =
      .obj [("enum", .arr [.arr []])] ∧
    sanitizeGeminiSchema (sanitizeGeminiSchema (.obj [("const", .arr [])])) =
      .obj [] ∧
    (JVal.obj [] : JVal) ≠ .obj [("enum", .arr [.arr []])] := by
  refine ⟨rfl, rfl, ?_⟩
  intro h
  injection h with h2
  cases h2

/-- C4 amended: schema sanitization is idempotent on every document in which
each value bound (case-insensitively) to a `const` key is a scalar or null —
exactly the restriction the counterexample forces, since a non-scalar const
value is re-emitted inside `enum` and filtered away on the second pass. -/
theorem sanitizeGemini_idempotent_on_scalar_consts :
    ∀ v : JVal, constScalar v = true →
      sanitizeGeminiSchema (sanitizeGeminiSchema v) = sanitizeGeminiSchema v :=
  fun v h => sanitizeGemini_idem_aux (sizeOf v + 1) v (Nat.lt_succ_self _) h

/-- C4 witness: idempotence at a concrete schema exercising type
normalization, const rewriting, enum filtering and required trimming. -/
theorem sanitizeGemini_idempotent_on_scalar_consts_witness :
    sanitizeGeminiSchema (sanitizeGeminiSchema
      (.obj [("type", .str "int"), ("const", .str "a"),
        ("enum", .arr [.str "a", .obj []]),
        ("required", .arr [.str " b ", .str ""]),
        ("properties", .obj [("p", .obj [("nullable", .bool true)])])])) =
    sanitizeGeminiSchema
      (.obj [("type", .str "int"), ("const", .str "a"),
        ("enum", .arr [.str "a", .obj []]),
        ("required", .arr [.str " b ", .str ""]),
        ("properties", .obj [("p", .obj [("nullable", .bool true)])])]) :=
  sanitizeGemini_idempotent_on_scalar_consts _ (by decide)
